import Mathlib

/-!
The stocker package: grid-to-calendar extraction and next/last stocking queries.

A shallow embedding of `stocker.go`.

Modelling conventions.

* Go strings are Lean `String`s (sequences of Unicode scalar values); the cell texts come from
  a JSON API and are valid UTF-8, on which Go's byte-wise operations and the rune-wise ones
  below agree.
* Go `int` is `Int`.  The only arithmetic on it is `year++`, `monthIndex++` and index
  subtraction, on values far from the 64-bit bounds, so no wrap-around is modelled; `Atoi`
  rejects numerals outside the 64-bit range as the library does.
* `time.Month` is `Int` (`January = 1`, ..., `December = 12`), `Fish` is `String`, as in the
  source.
* A `time.Time` instant is the `Int` number of nanoseconds since the Unix epoch.
* The package variable `getNow` is an explicit argument: `now` for `Next`/`Last`/ranking and
  the base year `getNow().Year()` for `initializeCalendar`.
* The remote fetch `Spreadsheets.Values.Get(...).Do()` is replaced by its successful result,
  the grid `resp.Values`.
* A Go runtime panic (index out of range) is the outcome `Result.panic`, distinct from a
  returned `error`.
* A `map[string]Calendar` is the list of its entries in the order the `range` loop visits
  them; the keys of a map are pairwise distinct.
-/

namespace Stocker

/-! ## Library functions used by the source -/

/-- Go `unicode.IsSpace`. -/
def isSpace (c : Char) : Bool :=
  let n := c.toNat
  n == 0x09 || n == 0x0A || n == 0x0B || n == 0x0C || n == 0x0D || n == 0x20 ||
  n == 0x85 || n == 0xA0 || n == 0x1680 || (0x2000 ≤ n && n ≤ 0x200A) ||
  n == 0x2028 || n == 0x2029 || n == 0x202F || n == 0x205F || n == 0x3000

/-- Go `strings.TrimSpace`: leading and trailing white space removed. -/
def TrimSpace (s : String) : String :=
  ⟨((s.data.dropWhile isSpace).reverse.dropWhile isSpace).reverse⟩

/-- The lower-case mappings with a constant offset of the Unicode Character Database, as
the table `unicode.CaseRanges` of Go holds them: `(lo, hi, delta)` sends every rune from
`lo` to `hi` to the rune `delta` further on. -/
def lowerDeltaRanges : List (Nat × Nat × Int) :=
  [
   (0xC0, 0xD6, 32), (0xD8, 0xDE, 32), (0x130, 0x130, -199), (0x178, 0x178, -121),
   (0x181, 0x181, 210), (0x186, 0x186, 206), (0x189, 0x18A, 205), (0x18E, 0x18E, 79),
   (0x18F, 0x18F, 202), (0x190, 0x190, 203), (0x193, 0x193, 205), (0x194, 0x194, 207),
   (0x196, 0x196, 211), (0x197, 0x197, 209), (0x19C, 0x19C, 211), (0x19D, 0x19D, 213),
   (0x19F, 0x19F, 214), (0x1A6, 0x1A6, 218), (0x1A9, 0x1A9, 218), (0x1AE, 0x1AE, 218),
   (0x1B1, 0x1B2, 217), (0x1B7, 0x1B7, 219), (0x1C4, 0x1C4, 2), (0x1C7, 0x1C7, 2),
   (0x1CA, 0x1CA, 2), (0x1F1, 0x1F1, 2), (0x1F6, 0x1F6, -97), (0x1F7, 0x1F7, -56),
   (0x220, 0x220, -130), (0x23A, 0x23A, 10795), (0x23D, 0x23D, -163), (0x23E, 0x23E, 10792),
   (0x243, 0x243, -195), (0x244, 0x244, 69), (0x245, 0x245, 71), (0x37F, 0x37F, 116),
   (0x386, 0x386, 38), (0x388, 0x38A, 37), (0x38C, 0x38C, 64), (0x38E, 0x38F, 63),
   (0x391, 0x3A1, 32), (0x3A3, 0x3AB, 32), (0x3CF, 0x3CF, 8), (0x3F4, 0x3F4, -60),
   (0x3F9, 0x3F9, -7), (0x3FD, 0x3FF, -130), (0x400, 0x40F, 80), (0x410, 0x42F, 32),
   (0x4C0, 0x4C0, 15), (0x531, 0x556, 48), (0x10A0, 0x10C5, 7264), (0x10C7, 0x10C7, 7264),
   (0x10CD, 0x10CD, 7264), (0x13A0, 0x13EF, 38864), (0x13F0, 0x13F5, 8), (0x1C90, 0x1CBA, -3008),
   (0x1CBD, 0x1CBF, -3008), (0x1E9E, 0x1E9E, -7615), (0x1F08, 0x1F0F, -8), (0x1F18, 0x1F1D, -8),
   (0x1F28, 0x1F2F, -8), (0x1F38, 0x1F3F, -8), (0x1F48, 0x1F4D, -8), (0x1F59, 0x1F59, -8),
   (0x1F5B, 0x1F5B, -8), (0x1F5D, 0x1F5D, -8), (0x1F5F, 0x1F5F, -8), (0x1F68, 0x1F6F, -8),
   (0x1F88, 0x1F8F, -8), (0x1F98, 0x1F9F, -8), (0x1FA8, 0x1FAF, -8), (0x1FB8, 0x1FB9, -8),
   (0x1FBA, 0x1FBB, -74), (0x1FBC, 0x1FBC, -9), (0x1FC8, 0x1FCB, -86), (0x1FCC, 0x1FCC, -9),
   (0x1FD8, 0x1FD9, -8), (0x1FDA, 0x1FDB, -100), (0x1FE8, 0x1FE9, -8), (0x1FEA, 0x1FEB, -112),
   (0x1FEC, 0x1FEC, -7), (0x1FF8, 0x1FF9, -128), (0x1FFA, 0x1FFB, -126), (0x1FFC, 0x1FFC, -9),
   (0x2126, 0x2126, -7517), (0x212A, 0x212A, -8383), (0x212B, 0x212B, -8262), (0x2132, 0x2132, 28),
   (0x2160, 0x216F, 16), (0x24B6, 0x24CF, 26), (0x2C00, 0x2C2F, 48), (0x2C62, 0x2C62, -10743),
   (0x2C63, 0x2C63, -3814), (0x2C64, 0x2C64, -10727), (0x2C6D, 0x2C6D, -10780), (0x2C6E, 0x2C6E, -10749),
   (0x2C6F, 0x2C6F, -10783), (0x2C70, 0x2C70, -10782), (0x2C7E, 0x2C7F, -10815), (0xA77D, 0xA77D, -35332),
   (0xA78D, 0xA78D, -42280), (0xA7AA, 0xA7AA, -42308), (0xA7AB, 0xA7AB, -42319), (0xA7AC, 0xA7AC, -42315),
   (0xA7AD, 0xA7AD, -42305), (0xA7AE, 0xA7AE, -42308), (0xA7B0, 0xA7B0, -42258), (0xA7B1, 0xA7B1, -42282),
   (0xA7B2, 0xA7B2, -42261), (0xA7B3, 0xA7B3, 928), (0xA7C4, 0xA7C4, -48), (0xA7C5, 0xA7C5, -42307),
   (0xA7C6, 0xA7C6, -35384), (0xFF21, 0xFF3A, 32), (0x10400, 0x10427, 40), (0x104B0, 0x104D3, 40),
   (0x10570, 0x1057A, 39), (0x1057C, 0x1058A, 39), (0x1058C, 0x10592, 39), (0x10594, 0x10595, 39),
   (0x10C80, 0x10CB2, 64), (0x118A0, 0x118BF, 32), (0x16E40, 0x16E5F, 32), (0x1E900, 0x1E921, 34)]

/-- The ranges of `unicode.CaseRanges` in which upper and lower case alternate
(`UpperLower`): from `lo` to `hi` the runes at an even distance from `lo` are upper case and
are sent to the next rune, the others are lower case. -/
def upperLowerRanges : List (Nat × Nat) :=
  [
   (0x100, 0x12F), (0x132, 0x137), (0x139, 0x148), (0x14A, 0x177), (0x179, 0x17E), (0x182, 0x185),
   (0x187, 0x188), (0x18B, 0x18C), (0x191, 0x192), (0x198, 0x199), (0x1A0, 0x1A5), (0x1A7, 0x1A8),
   (0x1AC, 0x1AD), (0x1AF, 0x1B0), (0x1B3, 0x1B6), (0x1B8, 0x1B9), (0x1BC, 0x1BD), (0x1C5, 0x1C6),
   (0x1C8, 0x1C9), (0x1CB, 0x1DC), (0x1DE, 0x1EF), (0x1F2, 0x1F5), (0x1F8, 0x21F), (0x222, 0x233),
   (0x23B, 0x23C), (0x241, 0x242), (0x246, 0x24F), (0x370, 0x373), (0x376, 0x377), (0x3D8, 0x3EF),
   (0x3F7, 0x3F8), (0x3FA, 0x3FB), (0x460, 0x481), (0x48A, 0x4BF), (0x4C1, 0x4CE), (0x4D0, 0x52F),
   (0x1E00, 0x1E95), (0x1EA0, 0x1EFF), (0x2183, 0x2184), (0x2C60, 0x2C61), (0x2C67, 0x2C6C), (0x2C72, 0x2C73),
   (0x2C75, 0x2C76), (0x2C80, 0x2CE3), (0x2CEB, 0x2CEE), (0x2CF2, 0x2CF3), (0xA640, 0xA66D), (0xA680, 0xA69B),
   (0xA722, 0xA72F), (0xA732, 0xA76F), (0xA779, 0xA77C), (0xA77E, 0xA787), (0xA78B, 0xA78C), (0xA790, 0xA793),
   (0xA796, 0xA7A9), (0xA7B4, 0xA7C3), (0xA7C7, 0xA7CA), (0xA7D0, 0xA7D1), (0xA7D6, 0xA7D9), (0xA7F5, 0xA7F6)]

/-- Go `unicode.ToLower`: the ASCII letters directly, the other runes through the case
ranges (Unicode 15.0.0); a rune with no lower-case mapping is returned as it is. -/
def toLowerRune (c : Char) : Char :=
  let n := c.toNat
  if n ≤ 0x7F then
    if 65 ≤ n ∧ n ≤ 90 then Char.ofNat (n + 32) else c
  else
    match lowerDeltaRanges.find? (fun r => decide (r.1 ≤ n ∧ n ≤ r.2.1)) with
    | some r => Char.ofNat ((n : Int) + r.2.2).toNat
    | none =>
      match upperLowerRanges.find? (fun r => decide (r.1 ≤ n ∧ n ≤ r.2)) with
      | some r => Char.ofNat (r.1 + ((n - r.1) / 2 * 2 + 1))
      | none => c

/-- Go `strings.ToLower`: every rune mapped to lower case. -/
def ToLower (s : String) : String := ⟨s.data.map toLowerRune⟩

/-- Go `strings.Split(s, "-")[0]`: the text before the first `-` (all of `s` without one). -/
def splitFirst (s : String) : String := ⟨s.data.takeWhile (fun c => c != '-')⟩

/-- Go `strings.TrimSuffix`. -/
def TrimSuffix (s suffix : String) : String :=
  if suffix.data.isSuffixOf s.data then ⟨s.data.take (s.data.length - suffix.data.length)⟩
  else s

/-- Decimal digits read left to right, `n` being the value read so far. -/
def parseDigits : List Char → Nat → Option Nat
  | [], n => some n
  | c :: cs, n =>
    if 48 ≤ c.toNat ∧ c.toNat ≤ 57 then parseDigits cs (n * 10 + (c.toNat - 48)) else none

/-- Go `strconv.Atoi` on a 64-bit platform: an optional sign, then one or more decimal
digits, the value within the `int` range; `none` is the error result. -/
def Atoi (s : String) : Option Int :=
  match s.data with
  | [] => none
  | c :: cs =>
    if c = '+' then
      if cs = [] then none
      else (parseDigits cs 0).bind fun n => if n < 2 ^ 63 then some (n : Int) else none
    else if c = '-' then
      if cs = [] then none
      else (parseDigits cs 0).bind fun n => if n ≤ 2 ^ 63 then some (-(n : Int)) else none
    else (parseDigits (c :: cs) 0).bind fun n => if n < 2 ^ 63 then some (n : Int) else none

/-- Go `strings.Compare`: the lexicographic order of the two texts. -/
def stringsCompare (a b : String) : Int :=
  if a = b then 0 else if a.data < b.data then -1 else 1

/-! ## Data model -/

/-- Fish is the type of fish that is stocked (`type Fish string`). -/
abbrev Fish := String

def Catfish : Fish := "Catfish"
def Trout : Fish := "Trout"
def UnknownFish : Fish := "Unknown"
def NoneFish : Fish := "None"

/-- ParseFish parses a string to a Fish type. -/
def ParseFish (f : String) : Fish :=
  let l := ToLower f
  if l = "x" ∨ l = "t" then Trout
  else if l = "c" then Catfish
  else if l = "" then NoneFish
  else UnknownFish

/-- A raw cell of the fetched grid (Go `any`): a string, or a value of any other type. -/
inductive Cell where
  | str (s : String)
  | other
  deriving DecidableEq, Repr

/-- The `time.Month` constants. -/
def January : Int := 1
def December : Int := 12

/-- Week represents a date on the calendar and shows stocking data for that week range. -/
structure Week where
  Month : Int
  Day : Int
  Year : Int
  Stock : Fish
  deriving DecidableEq, Repr

/-- The zero value `Week{}`. -/
def Week.zero : Week := ⟨0, 0, 0, ""⟩

/-- Calendar is an ordered list of Weeks for a specific water. -/
structure Calendar where
  WaterName : String
  Data : List Week
  deriving DecidableEq, Repr

/-- The `error` values the package itself creates. -/
inductive StockerError where
  | expectedTwoRows (got : Nat)
  | lengthMismatch (dates row : Nat)
  | wrapped (context : String) (err : StockerError)
  deriving DecidableEq, Repr

/-- Outcome of a call: a value, a returned `error`, or a runtime panic. -/
inductive Result (α : Type) where
  | ok (a : α)
  | error (e : StockerError)
  | panic
  deriving DecidableEq, Repr

/-! ## Time -/

/-- The offset of `azTime = time.FixedZone("AZ", -7)`, in seconds east of UTC. -/
def azOffset : Int := -7

/-- Days from 1970-01-01 to January 1 of `year` (proleptic Gregorian calendar). -/
def daysSinceEpoch (year : Int) : Int :=
  365 * (year - 1) + (year - 1) / 4 - (year - 1) / 100 + (year - 1) / 400 - 719162

/-- Leap years of the Gregorian calendar. -/
def isLeap (year : Int) : Bool :=
  year % 4 == 0 && (year % 100 != 0 || year % 400 == 0)

/-- Days of a non-leap year before the month with the given zero-based number. -/
def daysBefore : List Int := [0, 31, 59, 90, 120, 151, 181, 212, 243, 273, 304, 334]

/-- Go `time.Date(year, month, day, 0, 0, 0, 0, loc).Unix()` for a fixed zone `offset`
seconds east of UTC: the month is normalised into the year, the day may overflow.  The
value is that of the code as long as the count of seconds stays within 64 bits, as it does
for every date of a stocking calendar. -/
def dateUnix (year month day offset : Int) : Int :=
  let y := year + (month - 1) / 12
  let m := ((month - 1) % 12).toNat
  let d := daysSinceEpoch y + daysBefore.getD m 0 + (if isLeap y && decide (2 ≤ m) then 1 else 0)
    + (day - 1)
  d * 86400 - offset

/-- Time creates a time.Time from the Year, Month, and Date of stocking. -/
def Week.Time (s : Week) : Int := dateUnix s.Year s.Month s.Day azOffset * 1000000000

/-- Go `Time.Compare`. -/
def timeCompare (t u : Int) : Int := if t < u then -1 else if u < t then 1 else 0

/-! ## Queries -/

/-- The loop of `Calendar.Next` over the entries still to visit. -/
def nextLoop (now : Int) : List Week → Week
  | [] => Week.zero
  | data :: rest =>
    if data.Stock = NoneFish then nextLoop now rest
    else if data.Time > now then data
    else nextLoop now rest

/-- Next returns the closest upcoming stocking based on the current time. -/
def Calendar.Next (s : Calendar) (now : Int) : Week := nextLoop now s.Data

/-- The loop of `Calendar.Last` over the entries still to visit. -/
def lastLoop (now : Int) : List Week → Week
  | [] => Week.zero
  | data :: rest =>
    if data.Stock = NoneFish then lastLoop now rest
    else if data.Time < now then data
    else lastLoop now rest

/-- Last returns the most recent stocking based on the current time: the loop runs over
`slices.Backward(s.Data)`. -/
def Calendar.Last (s : Calendar) (now : Int) : Week := lastLoop now s.Data.reverse

/-- Go `slices.SortFunc`: the slice sorted by `cmp`.  The library promises a sorted
permutation (and no stability); insertion sort is the representative used here. -/
def SortFunc {α : Type} (x : List α) (cmp : α → α → Int) : List α :=
  x.insertionSort (fun a b => cmp a b ≤ 0)

/-- The comparison closure of `sortNextOrRecent`; an element `map[string]Week{name: week}`
is the pair `(name, week)`. -/
def compareEntries (next : Bool) (a b : String × Week) : Int :=
  let comp := if next then timeCompare a.2.Time b.2.Time else timeCompare b.2.Time a.2.Time
  if comp = 0 then stringsCompare a.1 b.1 else comp

/-- The method value `getWeek` of `sortNextOrRecent`: `calendar.Next` when `next` is set,
`calendar.Last` otherwise, called at the current time. -/
def getWeek (calendar : Calendar) (next : Bool) (now : Int) : Week :=
  if next then calendar.Next now else calendar.Last now

/-- The first loop of `sortNextOrRecent`: one element per water, in the order the map is
visited, the waters whose week has `Year == 0` left out. -/
def collectWeeks (data : List (String × Calendar)) (next : Bool) (now : Int) :
    List (String × Week) :=
  data.filterMap fun (waterName, calendar) =>
    let week := getWeek calendar next now
    if week.Year = 0 then none else some (waterName, week)

/-- sortNextOrRecent loops through the provided data to get the closest recent or upcoming
stocking and then sorts by this time. -/
def sortNextOrRecent (data : List (String × Calendar)) (next : Bool) (now : Int) :
    List (String × Week) :=
  SortFunc (collectWeeks data next now) (compareEntries next)

/-- SortNext returns a slice of waters and their closest upcoming stocking, sorted by time. -/
def SortNext (data : List (String × Calendar)) (now : Int) : List (String × Week) :=
  sortNextOrRecent data true now

/-- SortLast returns a slice of waters and their most recent stocking, sorted by time. -/
def SortLast (data : List (String × Calendar)) (now : Int) : List (String × Week) :=
  sortNextOrRecent data false now

/-! ## Cell reader -/

/-- The trimmed text of a string cell; the empty text for a cell of any other type. -/
def cellAsString : Cell → String
  | .str cellStr => TrimSpace cellStr
  | .other => ""

/-- The strings `nonEmptyCells` yields, in order (the yielded index is not used). -/
def nonEmptyCells (cells : List Cell) : List String :=
  (cells.map cellAsString).filter (fun cellStr => cellStr != "")

/-- The table `monthMap` from lower-case month names to `time.Month` values. -/
def monthMap : List (String × Int) :=
  [("january", 1), ("february", 2), ("march", 3), ("april", 4), ("may", 5), ("june", 6),
   ("july", 7), ("august", 8), ("september", 9), ("october", 10), ("november", 11),
   ("december", 12)]

/-- The month named by a month cell, after `strings.TrimSuffix(in, " 2024")` and
lower-casing; `none` is the `nil` result. -/
def parseMonth (s : String) : Option Int :=
  monthMap.lookup (ToLower (TrimSuffix s " 2024"))

/-- The value of `isNewYear(months, i)`, or `none` when `months[i]` panics. -/
def isNewYear (months : List Int) (i : Nat) : Option Bool :=
  match months[i]? with
  | none => none
  | some m => some (m == January && decide (i > 0) && months[i - 1]? == some December)

/-! ## Date-axis builder -/

/-- The month list `initializeCalendar` parses from the month row. -/
def parseMonths (monthCells : List Cell) : List Int :=
  (nonEmptyCells monthCells).filterMap parseMonth

/-- The loop of `initializeCalendar` over the day strings still to visit, from the state
`year`, `monthIndex`, `prevDay` and `data` (the `result.Data` built so far). -/
def initLoop (months : List Int) :
    List String → Int → Nat → Int → List Week → Result (List Week)
  | [], _, _, _, data => .ok data
  | date :: rest, year, monthIndex, prevDay, data =>
    match Atoi (splitFirst date) with
    | none => initLoop months rest year monthIndex prevDay data
    | some day =>
      let advanced : Option (Nat × Int) :=
        if day < prevDay then
          (isNewYear months (monthIndex + 1)).map fun newYear =>
            (monthIndex + 1, if newYear then year + 1 else year)
        else some (monthIndex, year)
      match advanced with
      | none => .panic
      | some (monthIndex, year) =>
        match months[monthIndex]? with
        | none => .panic
        | some month =>
          initLoop months rest year monthIndex day (data ++ [⟨month, day, year, ""⟩])

/-- initializeCalendar parses the date rows of the Sheet to initialize the Calendar dates.
`values` is the fetched date range and `year` is `getNow().Year()`. -/
def initializeCalendar (values : List (List Cell)) (year : Int) : Result Calendar :=
  match values with
  | [monthCells, dayCells] =>
    match initLoop (parseMonths monthCells) (nonEmptyCells dayCells) year 0 (-1) [] with
    | .ok data => .ok ⟨"", data⟩
    | .error e => .error e
    | .panic => .panic
  | _ => .error (.expectedTwoRows values.length)

/-! ## Row normalizer -/

/-- The second loop of `getDataFromRow` over the cells still to visit, `i` being the index
of the first of them, from the state `skippedRows` and `data` (the `result.Data` built so
far). -/
def rowLoop (skipDataCol : Int) (dates : List Week) :
    List Cell → Nat → Int → List Week → Result (List Week)
  | [], _, _, data => .ok data
  | stock :: rest, i, skippedRows, data =>
    if (i : Int) = skipDataCol then rowLoop skipDataCol dates rest (i + 1) 1 data
    else
      let j : Int := i - skippedRows
      if j < 0 then .panic
      else
        match dates[j.toNat]? with
        | none => .panic
        | some dateItem =>
          rowLoop skipDataCol dates rest (i + 1) skippedRows
            (data ++ [{ dateItem with Stock := ParseFish (cellAsString stock) }])

/-- The row after the padding loop of `getDataFromRow`: cells `""` are appended while
`len(row) - skippedRows < len(stockingCalendar.Data)`. -/
def padRow (skipDataCol : Int) (row : List Cell) (n : Nat) : List Cell :=
  row ++ List.replicate (n + (if skipDataCol ≥ 0 then 1 else 0) - row.length) (Cell.str "")

/-- getDataFromRow parses a row and adds stocking data to the provided Calendar dates. -/
def getDataFromRow (skipDataCol : Int) (row : List Cell) (stockingCalendar : Calendar) :
    Result Calendar :=
  let skippedRows : Int := if skipDataCol ≥ 0 then 1 else 0
  let padded := padRow skipDataCol row stockingCalendar.Data.length
  if (stockingCalendar.Data.length : Int) ≠ padded.length - skippedRows then
    .error (.lengthMismatch stockingCalendar.Data.length padded.length)
  else
    match rowLoop skipDataCol stockingCalendar.Data padded 0 0 [] with
    | .ok data => .ok ⟨"", data⟩
    | .error e => .error e
    | .panic => .panic

/-! ## Calendar assembler -/

/-- The map assignment `result[key] = value` on a `map[string]Calendar`. -/
def mapSet (result : List (String × Calendar)) (key : String) (value : Calendar) :
    List (String × Calendar) :=
  result.filter (fun p => p.1 != key) ++ [(key, value)]

/-- The loop of `getStockingData` over the rows still to visit, from the state `result` and
`allWaterNames`. -/
def stockLoop (skipDataCol : Int) (stockingCalendar : Calendar) (waterNames : List String) :
    List (List Cell) → List (String × Calendar) → List String →
      Result (List (String × Calendar) × List String)
  | [], result, allWaterNames => .ok (result, allWaterNames)
  | row :: rest, result, allWaterNames =>
    if row.length < 2 then stockLoop skipDataCol stockingCalendar waterNames rest result allWaterNames
    else
      match row[0]? with
      | none => .panic
      | some cell =>
        let waterName := cellAsString cell
        if waterName = "" then
          stockLoop skipDataCol stockingCalendar waterNames rest result allWaterNames
        else if waterNames.length > 0 ∧ ¬ waterNames.contains (ToLower waterName) then
          stockLoop skipDataCol stockingCalendar waterNames rest result
            (allWaterNames ++ [waterName])
        else
          match getDataFromRow skipDataCol (row.drop 1) stockingCalendar with
          | .error _ =>
            stockLoop skipDataCol stockingCalendar waterNames rest result
              (allWaterNames ++ [waterName])
          | .panic => .panic
          | .ok data =>
            stockLoop skipDataCol stockingCalendar waterNames rest
              (mapSet result waterName { data with WaterName := waterName })
              (allWaterNames ++ [waterName])

/-- getStockingData parses a sheet to populate the provided Calendar dates with stocking
data for specified waters.  Also returns a list of all water names in the sheet.  `values`
is the fetched schedule range. -/
def getStockingData (skipDataCol : Int) (stockingCalendar : Calendar)
    (waterNames : List String) (values : List (List Cell)) :
    Result (List (String × Calendar) × List String) :=
  stockLoop skipDataCol stockingCalendar waterNames values [] []

/-- The method `getDataForWaters`: `dateValues` and `values` are the fetched date and
schedule ranges, `year` is `getNow().Year()`. -/
def getDataForWaters (skipDataCol : Int) (dateValues values : List (List Cell)) (year : Int)
    (waterNames : List String) : Result (List (String × Calendar) × List String) :=
  let lowerCaseWaterNames := waterNames.map ToLower
  match initializeCalendar dateValues year with
  | .error err => .error (.wrapped "error initializing calendar" err)
  | .panic => .panic
  | .ok stockingCalendar =>
    match getStockingData skipDataCol stockingCalendar lowerCaseWaterNames values with
    | .error err => .error (.wrapped "error finding water rows" err)
    | .panic => .panic
    | .ok (data, allWaterNames) => .ok (data, allWaterNames)

/-! ## Formatting -/

/-- The decimal digits of a natural number, `fuel` bounding their number. -/
def natDigits : Nat → Nat → List Char
  | 0, _ => []
  | fuel + 1, n =>
    if n < 10 then [Char.ofNat (48 + n)]
    else natDigits fuel (n / 10) ++ [Char.ofNat (48 + n % 10)]

/-- The verb `%d` of `fmt` on an `int`. -/
def formatInt (n : Int) : String :=
  if n < 0 then ⟨'-' :: natDigits (n.natAbs + 1) n.natAbs⟩
  else ⟨natDigits (n.natAbs + 1) n.natAbs⟩

/-- The English month names of package `time`. -/
def longMonthNames : List String :=
  ["January", "February", "March", "April", "May", "June", "July", "August", "September",
   "October", "November", "December"]

/-- Go `time.Month.String`; a value out of range is printed as the unsigned 64-bit number
`uint64(m)`. -/
def monthString (m : Int) : String :=
  if January ≤ m ∧ m ≤ December then longMonthNames.getD (m - 1).toNat ""
  else "%!Month(" ++ formatInt (m % 2 ^ 64) ++ ")"

/-- The two hexadecimal digits of a byte. -/
def hexByte (n : Nat) : List Char :=
  let digit := fun (d : Nat) => if d < 10 then Char.ofNat (48 + d) else Char.ofNat (87 + d)
  [digit (n / 16 % 16), digit (n % 16)]

/-- One rune of Go `strconv.Quote`, exact up to U+00FF: the controls U+0080 to U+009F, the
no-break space U+00A0 and the soft hyphen U+00AD are written `\u00xx`.  The runes from
U+0100 on are taken to be printable, as the letters and signs of spreadsheet text are, and
stand for themselves. -/
def quoteRune (c : Char) : List Char :=
  let n := c.toNat
  if n = 0x22 ∨ n = 0x5C then [Char.ofNat 0x5C, c]
  else if 0x20 ≤ n ∧ n ≤ 0x7E then [c]
  else if n = 0x07 then [Char.ofNat 0x5C, 'a']
  else if n = 0x08 then [Char.ofNat 0x5C, 'b']
  else if n = 0x0C then [Char.ofNat 0x5C, 'f']
  else if n = 0x0A then [Char.ofNat 0x5C, 'n']
  else if n = 0x0D then [Char.ofNat 0x5C, 'r']
  else if n = 0x09 then [Char.ofNat 0x5C, 't']
  else if n = 0x0B then [Char.ofNat 0x5C, 'v']
  else if n < 0x20 ∨ n = 0x7F then Char.ofNat 0x5C :: 'x' :: hexByte n
  else if (0x80 ≤ n ∧ n ≤ 0xA0) ∨ n = 0xAD then Char.ofNat 0x5C :: 'u' :: '0' :: '0' :: hexByte n
  else [c]

/-- The verb `%q` of `fmt` on a string: Go `strconv.Quote`. -/
def quote (s : String) : String :=
  ⟨Char.ofNat 0x22 :: (s.data.map quoteRune).flatten ++ [Char.ofNat 0x22]⟩

/-- String formats the Week to show the date and stocking data. -/
def Week.String (s : Week) : String :=
  if s.Year = 0 ∧ s.Day = 0 then "No Data"
  else formatInt s.Year ++ " " ++ monthString s.Month ++ " " ++ formatInt s.Day ++ ": " ++
    quote s.Stock

/-- The loop of `Calendar.Format` over the entries still to visit, `sb` being the text
written to the builder so far. -/
def formatLoop (hideEmpty : Bool) : List Week → String → String
  | [], sb => sb
  | data :: rest, sb =>
    if hideEmpty ∧ data.Stock = NoneFish then formatLoop hideEmpty rest sb
    else formatLoop hideEmpty rest (sb ++ data.String ++ "\n")

/-- Format all dates in the Calendar.  If hideEmpty is set, it will exclude non-stocking
days. -/
def Calendar.Format (s : Calendar) (hideEmpty : Bool) : String :=
  TrimSuffix (formatLoop hideEmpty s.Data "") "\n"

/-- String formats the Calendar and excludes non-stocked dates (so the source comment
reads; the body is `s.Format(false)`). -/
def Calendar.String (s : Calendar) : String := s.Format false

/-! ## Vocabulary of the statements -/

/-- A date-axis entry annotated with the stocking token of a cell. -/
def annotate (dateItem : Week) (stock : Cell) : Week :=
  { dateItem with Stock := ParseFish (cellAsString stock) }

/-- The day number `initializeCalendar` reads from a day string, when `Atoi` accepts the
text before the first `-`. -/
def dayOf (date : String) : Option Int := Atoi (splitFirst date)

/-- The left-to-right sequence of parseable day numbers of a day row. -/
def parsedDays (dayCells : List Cell) : List Int := (nonEmptyCells dayCells).filterMap dayOf

/-- The number of positions `j` with `1 <= j <= k` and `d_j < d_(j-1)`. -/
def monthAdvances (ds : List Int) (k : Nat) : Nat :=
  ((Finset.Icc 1 k).filter fun j => ds.getD j 0 < ds.getD (j - 1) 0).card

/-- The number of positions `j` with `1 <= j <= k` and `d_j < d_(j-1)` at which the month
entered is January and the month before it in the month list is December; the month index
before position 0 is `i0`. -/
def yearAdvancesFrom (months : List Int) (i0 : Nat) (ds : List Int) (k : Nat) : Nat :=
  ((Finset.Icc 1 k).filter fun j => ds.getD j 0 < ds.getD (j - 1) 0 ∧
    months[i0 + monthAdvances ds j]? = some January ∧
    months[i0 + monthAdvances ds j - 1]? = some December).card

/-- The number of month advances at or before position `k` that enter a January coming
right after a December in the month list. -/
def yearAdvances (months : List Int) (ds : List Int) (k : Nat) : Nat :=
  ((Finset.Icc 1 k).filter fun j => ds.getD j 0 < ds.getD (j - 1) 0 ∧
    months[monthAdvances ds j]? = some January ∧
    months[monthAdvances ds j - 1]? = some December).card

/-- The water name a schedule row adds to the all-names list of `getStockingData`: the
trimmed text of the first cell, for a row of at least two cells whose first cell has a
non-empty text. -/
def rowName (row : List Cell) : Option String :=
  if row.length < 2 then none
  else
    match row[0]? with
    | none => none
    | some cell => if cellAsString cell = "" then none else some (cellAsString cell)

/-- What one iteration of the loop of `getStockingData` does with a row: nothing
(`none`), record the name only, or record the name and assign the calendar; or panic. -/
def rowEffect (skipDataCol : Int) (stockingCalendar : Calendar) (waterNames : List String)
    (row : List Cell) : Result (Option (String × Option Calendar)) :=
  match rowName row with
  | none => .ok none
  | some name =>
    if waterNames.length > 0 ∧ ¬ waterNames.contains (ToLower name) then .ok (some (name, none))
    else
      match getDataFromRow skipDataCol (row.drop 1) stockingCalendar with
      | .error _ => .ok (some (name, none))
      | .panic => .panic
      | .ok data => .ok (some (name, some { data with WaterName := name }))

/-- The value of an outcome mapped by `f`. -/
def Result.map {α β : Type} (f : α → β) : Result α → Result β
  | .ok a => .ok (f a)
  | .error e => .error e
  | .panic => .panic

/-- The upper-case form of a lower-case ASCII letter. -/
def upperRune (c : Char) : Char := Char.ofNat (c.toNat - 32)

/-- The text `t` spells `name` in some mixture of upper and lower case: letter by letter
it has the letter of `name` or its upper-case form. -/
def IsCaseMix (t name : String) : Prop :=
  List.Forall₂ (fun c l => c = l ∨ c = upperRune l) t.data name.data

/-- The date of `a` is not later than the date of `b`: the triples (Year, Month, Day)
compared lexicographically. -/
abbrev dateLE (a b : Week) : Prop :=
  a.Year < b.Year ∨ (a.Year = b.Year ∧ (a.Month < b.Month ∨ (a.Month = b.Month ∧ a.Day ≤ b.Day)))

/-- Go `slices.IsSortedFunc`: no element compares less than the one before it. -/
def IsSortedFunc {α : Type} (x : List α) (cmp : α → α → Int) : Prop :=
  List.Chain' (fun a b => ¬ cmp b a < 0) x

/-! ## Trimmed text -/

/-- What `strings.TrimSpace` returns: the text without a run of white space at its start
and one at its end, and what is left neither starts nor ends with white space. -/
theorem TrimSpace_spec (text : String) :
    ∃ pre post : List Char, (∀ c ∈ pre, isSpace c = true) ∧ (∀ c ∈ post, isSpace c = true) ∧
      text.data = pre ++ (TrimSpace text).data ++ post ∧
      (∀ c, (TrimSpace text).data.head? = some c → isSpace c = false) ∧
      (∀ c, (TrimSpace text).data.getLast? = some c → isSpace c = false) := by
  have h1 := List.takeWhile_append_dropWhile isSpace text.data
  have h2 := List.takeWhile_append_dropWhile isSpace (text.data.dropWhile isSpace).reverse
  have h3 : text.data.dropWhile isSpace =
      ((text.data.dropWhile isSpace).reverse.dropWhile isSpace).reverse ++
        ((text.data.dropWhile isSpace).reverse.takeWhile isSpace).reverse := by
    rw [← List.reverse_append, h2, List.reverse_reverse]
  have hd : (TrimSpace text).data =
      ((text.data.dropWhile isSpace).reverse.dropWhile isSpace).reverse := rfl
  refine ⟨text.data.takeWhile isSpace,
    ((text.data.dropWhile isSpace).reverse.takeWhile isSpace).reverse, ?_, ?_, ?_, ?_, ?_⟩
  · intro c hc
    exact List.mem_takeWhile_imp hc
  · intro c hc
    exact List.mem_takeWhile_imp (List.mem_reverse.1 hc)
  · rw [hd, List.append_assoc, ← h3, h1]
  · intro c hc
    rw [hd] at hc
    have hne : ((text.data.dropWhile isSpace).reverse.dropWhile isSpace).reverse ≠ [] := by
      intro h0
      rw [h0] at hc
      cases hc
    have hh : (text.data.dropWhile isSpace).head? = some c := by
      rw [h3, List.head?_append_of_ne_nil _ hne]
      exact hc
    have := List.head?_dropWhile_not isSpace text.data
    rw [hh] at this
    exact this
  · intro c hc
    rw [hd, List.getLast?_reverse] at hc
    have := List.head?_dropWhile_not isSpace (text.data.dropWhile isSpace).reverse
    rw [hc] at this
    exact this

/-! ## Token classification -/

theorem ToLower_eq_empty (f : String) : ToLower f = "" ↔ f = "" := by
  constructor
  · intro h
    have h1 : (ToLower f).data = [] := by rw [h]
    have h2 : f.data = [] := by simpa [ToLower] using h1
    exact String.ext h2
  · rintro rfl
    rfl

/-- C9. `ParseFish` is total and case-insensitive: the result is Trout exactly when the
lower-cased token is "x" or "t", Catfish exactly when it is "c", None exactly when the token
is empty, Unknown in every other case; the four kinds are pairwise distinct, so None and
Unknown are never merged; two tokens with the same lower-case form classify alike.  The
examples "x", "X", "t", "c", "C", "" and "?" are evaluated at the end. -/
theorem ParseFish_classification (f : String) :
    (ParseFish f = Trout ↔ ToLower f = "x" ∨ ToLower f = "t") ∧
    (ParseFish f = Catfish ↔ ToLower f = "c") ∧
    (ParseFish f = NoneFish ↔ f = "") ∧
    (ParseFish f = UnknownFish ↔
      ¬ (ToLower f = "x" ∨ ToLower f = "t" ∨ ToLower f = "c" ∨ f = "")) ∧
    (ParseFish f = Trout ∨ ParseFish f = Catfish ∨ ParseFish f = NoneFish ∨
      ParseFish f = UnknownFish) ∧
    (Trout ≠ Catfish ∧ Trout ≠ NoneFish ∧ Trout ≠ UnknownFish ∧ Catfish ≠ NoneFish ∧
      Catfish ≠ UnknownFish ∧ NoneFish ≠ UnknownFish) ∧
    (∀ g : String, ToLower g = ToLower f → ParseFish g = ParseFish f) ∧
    (ParseFish "x" = Trout ∧ ParseFish "X" = Trout ∧ ParseFish "t" = Trout ∧
      ParseFish "c" = Catfish ∧ ParseFish "C" = Catfish ∧ ParseFish "" = NoneFish ∧
      ParseFish "?" = UnknownFish) := by
  have hx : ("x" : String) ≠ "" := by decide
  have ht : ("t" : String) ≠ "" := by decide
  have hc : ("c" : String) ≠ "" := by decide
  have hxc : ("x" : String) ≠ "c" := by decide
  have htc : ("t" : String) ≠ "c" := by decide
  have hTC : Trout ≠ Catfish := by decide
  have hTN : Trout ≠ NoneFish := by decide
  have hTU : Trout ≠ UnknownFish := by decide
  have hCN : Catfish ≠ NoneFish := by decide
  have hCU : Catfish ≠ UnknownFish := by decide
  have hNU : NoneFish ≠ UnknownFish := by decide
  have he := ToLower_eq_empty f
  refine ⟨?_, ?_, ?_, ?_, ?_, ⟨hTC, hTN, hTU, hCN, hCU, hNU⟩,
    fun g hg => by unfold ParseFish; rw [hg], by decide⟩
  all_goals
    unfold ParseFish
    by_cases h1 : ToLower f = "x"
    · have e0 : ¬ ToLower f = "" := by rw [h1]; exact hx
      have e1 : ¬ ToLower f = "c" := by rw [h1]; exact hxc
      have e2 : ¬ f = "" := fun h => e0 (he.2 h)
      simp [h1, hTC, hTN, hTU, e2, hxc]
    · by_cases h2 : ToLower f = "t"
      · have e0 : ¬ ToLower f = "" := by rw [h2]; exact ht
        have e2 : ¬ f = "" := fun h => e0 (he.2 h)
        simp [h2, hTC, hTN, hTU, e2, htc]
      · by_cases h3 : ToLower f = "c"
        · have e0 : ¬ ToLower f = "" := by rw [h3]; exact hc
          have e2 : ¬ f = "" := fun h => e0 (he.2 h)
          simp [h3, hTC.symm, hCN, hCU, e2, hxc.symm, htc.symm]
        · by_cases h4 : ToLower f = ""
          · have e2 : (f = "") = True := eq_true (he.1 h4)
            simp [h1, h2, h3, h4, hTN.symm, hCN.symm, hNU, e2]
          · have e2 : ¬ f = "" := fun h => h4 (he.2 h)
            simp [h1, h2, h3, h4, hTU.symm, hCU.symm, hNU.symm, e2]

/-- Witness for C9 at the token "T". -/
theorem ParseFish_classification_witness :
    ParseFish "T" = Trout ∧ ToLower "T" = "t" :=
  ⟨((ParseFish_classification "T").1).2 (Or.inr (by decide)), by decide⟩

/-! ## Next and Last -/

theorem nextLoop_spec (now : Int) (l : List Week) :
    (∃ (i : Nat) (w : Week), l[i]? = some w ∧ w.Stock ≠ NoneFish ∧ now < w.Time ∧
        (∀ (j : Nat) (v : Week), j < i → l[j]? = some v → ¬ (v.Stock ≠ NoneFish ∧ now < v.Time)) ∧
        nextLoop now l = w) ∨
      ((∀ (i : Nat) (v : Week), l[i]? = some v → ¬ (v.Stock ≠ NoneFish ∧ now < v.Time)) ∧
        nextLoop now l = Week.zero) := by
  induction l with
  | nil => right; simp [nextLoop]
  | cons a l ih =>
    by_cases hq : a.Stock ≠ NoneFish ∧ now < a.Time
    · left
      refine ⟨0, a, by simp, hq.1, hq.2, ?_, ?_⟩
      · intro j v hj; omega
      · simp [nextLoop, hq.1, hq.2]
    · have hstep : nextLoop now (a :: l) = nextLoop now l := by
        by_cases hs : a.Stock = NoneFish
        · simp [nextLoop, hs]
        · have : ¬ now < a.Time := fun h => hq ⟨hs, h⟩
          simp [nextLoop, hs, this]
      rcases ih with ⟨i, w, hi, h1, h2, h3, h4⟩ | ⟨h3, h4⟩
      · left
        refine ⟨i + 1, w, by simpa using hi, h1, h2, ?_, by rw [hstep, h4]⟩
        intro j v hj hv
        cases j with
        | zero =>
          simp at hv
          subst hv
          exact hq
        | succ j => exact h3 j v (by omega) (by simpa using hv)
      · right
        refine ⟨?_, by rw [hstep, h4]⟩
        intro i v hv
        cases i with
        | zero =>
          simp at hv
          subst hv
          exact hq
        | succ i => exact h3 i v (by simpa using hv)

theorem lastLoop_reverse_spec (now : Int) (l : List Week) :
    (∃ (i : Nat) (w : Week), l[i]? = some w ∧ w.Stock ≠ NoneFish ∧ w.Time < now ∧
        (∀ (j : Nat) (v : Week), i < j → l[j]? = some v → ¬ (v.Stock ≠ NoneFish ∧ v.Time < now)) ∧
        lastLoop now l.reverse = w) ∨
      ((∀ (i : Nat) (v : Week), l[i]? = some v → ¬ (v.Stock ≠ NoneFish ∧ v.Time < now)) ∧
        lastLoop now l.reverse = Week.zero) := by
  induction l using List.reverseRecOn with
  | nil => right; simp [lastLoop]
  | append_singleton l a ih =>
    rw [List.reverse_append, List.reverse_singleton, List.singleton_append]
    by_cases hq : a.Stock ≠ NoneFish ∧ a.Time < now
    · left
      refine ⟨l.length, a, by simp, hq.1, hq.2, ?_, ?_⟩
      · intro j v hj hv
        have : (l ++ [a])[j]? = none := by
          apply List.getElem?_eq_none
          simp
          omega
        rw [this] at hv
        cases hv
      · simp [lastLoop, hq.1, hq.2]
    · have hstep : lastLoop now (a :: l.reverse) = lastLoop now l.reverse := by
        by_cases hs : a.Stock = NoneFish
        · simp [lastLoop, hs]
        · have : ¬ a.Time < now := fun h => hq ⟨hs, h⟩
          simp [lastLoop, hs, this]
      have hget : ∀ (j : Nat) (v : Week), (l ++ [a])[j]? = some v → l[j]? = some v ∨ v = a := by
        intro j v hv
        rcases Nat.lt_or_ge j l.length with hj | hj
        · left
          rwa [List.getElem?_append_left hj] at hv
        · right
          rw [List.getElem?_append_right hj] at hv
          have hm : v ∈ [a] := List.getElem?_mem hv
          simpa using hm
      rcases ih with ⟨i, w, hi, h1, h2, h3, h4⟩ | ⟨h3, h4⟩
      · left
        have hil : i < l.length := by
          rcases Nat.lt_or_ge i l.length with h | h
          · exact h
          · rw [List.getElem?_eq_none h] at hi
            cases hi
        refine ⟨i, w, ?_, h1, h2, ?_, by rw [hstep, h4]⟩
        · rw [List.getElem?_append_left hil]
          exact hi
        · intro j v hj hv
          rcases hget j v hv with h | h
          · exact h3 j v hj h
          · rw [h]
            exact hq
      · right
        refine ⟨?_, by rw [hstep, h4]⟩
        intro j v hv
        rcases hget j v hv with h | h
        · exact h3 j v h
        · rw [h]
          exact hq

/-- C5. `Next` returns the entry at the smallest index whose Stock is not None and whose
Time() is strictly after `now`; when no index qualifies it returns the zero value `Week{}`.
An Unknown entry is not None, so it qualifies; an all-None calendar gives the zero value. -/
theorem Calendar_Next_spec (s : Calendar) (now : Int) :
    ((∃ (i : Nat) (w : Week), s.Data[i]? = some w ∧ w.Stock ≠ NoneFish ∧ now < w.Time ∧
        (∀ (j : Nat) (v : Week), j < i → s.Data[j]? = some v → ¬ (v.Stock ≠ NoneFish ∧ now < v.Time)) ∧
        s.Next now = w) ∨
      ((∀ (i : Nat) (v : Week), s.Data[i]? = some v → ¬ (v.Stock ≠ NoneFish ∧ now < v.Time)) ∧
        s.Next now = Week.zero)) ∧
    UnknownFish ≠ NoneFish ∧
    ((∀ w ∈ s.Data, w.Stock = NoneFish) → s.Next now = Week.zero) := by
  refine ⟨nextLoop_spec now s.Data, by decide, ?_⟩
  intro hall
  rcases nextLoop_spec now s.Data with ⟨i, w, hi, h1, _, _, _⟩ | ⟨_, h⟩
  · exact absurd (hall w (List.getElem?_mem hi)) h1
  · exact h

/-- Witness for C5: an all-None calendar. -/
theorem Calendar_Next_spec_witness :
    Calendar.Next ⟨"A", [⟨1, 5, 2024, NoneFish⟩, ⟨1, 12, 2024, NoneFish⟩]⟩ 0 = Week.zero :=
  (Calendar_Next_spec ⟨"A", [⟨1, 5, 2024, NoneFish⟩, ⟨1, 12, 2024, NoneFish⟩]⟩ 0).2.2
    (by decide)

/-- C6. `Last` returns the entry at the largest index whose Stock is not None and whose
Time() is strictly before `now`; when no index qualifies it returns the zero value
`Week{}`.  An all-None calendar gives the zero value. -/
theorem Calendar_Last_spec (s : Calendar) (now : Int) :
    ((∃ (i : Nat) (w : Week), s.Data[i]? = some w ∧ w.Stock ≠ NoneFish ∧ w.Time < now ∧
        (∀ (j : Nat) (v : Week), i < j → s.Data[j]? = some v → ¬ (v.Stock ≠ NoneFish ∧ v.Time < now)) ∧
        s.Last now = w) ∨
      ((∀ (i : Nat) (v : Week), s.Data[i]? = some v → ¬ (v.Stock ≠ NoneFish ∧ v.Time < now)) ∧
        s.Last now = Week.zero)) ∧
    ((∀ w ∈ s.Data, w.Stock = NoneFish) → s.Last now = Week.zero) := by
  refine ⟨lastLoop_reverse_spec now s.Data, ?_⟩
  intro hall
  rcases lastLoop_reverse_spec now s.Data with ⟨i, w, hi, h1, _, _, _⟩ | ⟨_, h⟩
  · exact absurd (hall w (List.getElem?_mem hi)) h1
  · exact h

/-- Witness for C6: an all-None calendar, asked after both of its dates. -/
theorem Calendar_Last_spec_witness :
    Calendar.Last ⟨"A", [⟨1, 5, 2024, NoneFish⟩, ⟨1, 12, 2024, NoneFish⟩]⟩
      (Week.Time ⟨2, 1, 2024, ""⟩) = Week.zero :=
  (Calendar_Last_spec ⟨"A", [⟨1, 5, 2024, NoneFish⟩, ⟨1, 12, 2024, NoneFish⟩]⟩
    (Week.Time ⟨2, 1, 2024, ""⟩)).2 (by decide)

/-! ## Row normalizer: alignment -/

/-- A run of cells none of which sits at the skip index is aligned one to one with the
axis entries from offset `o = i - skippedRows` on. -/
theorem rowLoop_append_run (s : Int) (dates : List Week) (sk : Int) :
    ∀ (pre rest : List Cell) (i o : Nat) (data : List Week),
      (i : Int) - sk = o →
      (∀ k : Nat, i ≤ k → k < i + pre.length → (k : Int) ≠ s) →
      o + pre.length ≤ dates.length →
      rowLoop s dates (pre ++ rest) i sk data =
        rowLoop s dates rest (i + pre.length) sk
          (data ++ List.zipWith annotate (dates.drop o) pre) := by
  intro pre
  induction pre with
  | nil => intro rest i o data _ _ _; simp
  | cons c pre ih =>
    intro rest i o data hio hskip hlen
    have hi : (i : Int) ≠ s := hskip i (Nat.le_refl i) (by simp)
    have ho : o < dates.length := by simp at hlen; omega
    have hj : ¬ ((i : Int) - sk < 0) := by omega
    have hget : dates[((i : Int) - sk).toNat]? = some dates[o] := by
      rw [hio]
      simp [List.getElem?_eq_getElem ho]
    rw [List.cons_append, rowLoop]
    simp only [hi, if_false, hj, hget]
    rw [ih rest (i + 1) (o + 1) _ (by push_cast; omega)
      (fun k h1 h2 => hskip k (by omega) (by simp; omega)) (by simp at hlen; omega)]
    rw [List.drop_eq_getElem_cons ho, List.zipWith_cons_cons, List.append_assoc]
    simp only [List.length_cons, List.singleton_append, annotate]
    congr 1
    omega

theorem padRow_length (s : Int) (row : List Cell) (n : Nat) :
    (padRow s row n).length = max row.length (n + (if s ≥ 0 then 1 else 0)) := by
  simp only [padRow, List.length_append, List.length_replicate]
  omega

/-- A row with more cells than the axis has dates (the skipped cell not counted) is
rejected with the length-mismatch error. -/
theorem getDataFromRow_too_long (s : Int) (row : List Cell) (cal : Calendar)
    (h : (cal.Data.length : Int) < row.length - (if s ≥ 0 then 1 else 0)) :
    getDataFromRow s row cal = .error (.lengthMismatch cal.Data.length row.length) := by
  have hp : padRow s row cal.Data.length = row := by
    have : cal.Data.length + (if s ≥ 0 then 1 else 0) - row.length = 0 := by
      split_ifs at h ⊢ <;> omega
    simp [padRow, this]
  unfold getDataFromRow
  simp only [hp]
  rw [if_pos]
  split_ifs at h ⊢ <;> omega

theorem getElem?_zipWith_annotate (ds : List Week) (cs : List Cell) (j : Nat) (d : Week)
    (c : Cell) (hd : ds[j]? = some d) (hc : cs[j]? = some c) :
    (List.zipWith annotate ds cs)[j]? = some (annotate d c) := by
  rw [List.getElem?_zipWith, hd, hc]

/-- The outcome of `getDataFromRow` without a skip column, for a row no longer than the
axis. -/
theorem getDataFromRow_noskip (s : Int) (row : List Cell) (cal : Calendar) (hs : s < 0)
    (hrow : row.length ≤ cal.Data.length) :
    getDataFromRow s row cal =
      .ok ⟨"", List.zipWith annotate cal.Data (padRow s row cal.Data.length)⟩ := by
  have hns : ¬ s ≥ 0 := by omega
  have hlen : (padRow s row cal.Data.length).length = cal.Data.length := by
    rw [padRow_length]; simp [hns]; omega
  have hrun := rowLoop_append_run s cal.Data 0 (padRow s row cal.Data.length) [] 0 0 []
    (by simp) (fun k _ _ => by omega) (by omega)
  unfold getDataFromRow
  simp only [hlen, hns, if_false]
  simp only [List.append_nil, List.drop_zero, List.nil_append] at hrun
  rw [hrun]
  simp [rowLoop]

/-- The outcome of `getDataFromRow` with the skip column `t` inside the padded row. -/
theorem getDataFromRow_skip (t : Nat) (row : List Cell) (cal : Calendar)
    (ht : t ≤ cal.Data.length) (hrow : row.length ≤ cal.Data.length + 1) :
    getDataFromRow t row cal =
      .ok ⟨"", List.zipWith annotate cal.Data ((padRow t row cal.Data.length).take t) ++
        List.zipWith annotate (cal.Data.drop t) ((padRow t row cal.Data.length).drop (t + 1))⟩ := by
  have hns : (t : Int) ≥ 0 := by omega
  have hlen : (padRow t row cal.Data.length).length = cal.Data.length + 1 := by
    rw [padRow_length]; simp [hns]; omega
  generalize hp : padRow (t : Int) row cal.Data.length = padded at hlen
  have htl : t < padded.length := by omega
  have hsplit : padded = padded.take t ++ padded[t] :: padded.drop (t + 1) := by
    rw [← List.drop_eq_getElem_cons htl, List.take_append_drop]
  have hrun1 := rowLoop_append_run t cal.Data 0 (padded.take t) (padded[t] :: padded.drop (t + 1))
    0 0 [] (by simp) (fun k _ h => by simp at h; omega) (by simp; omega)
  have hrun2 := rowLoop_append_run t cal.Data 1 (padded.drop (t + 1)) [] (t + 1) t
    (List.zipWith annotate cal.Data (padded.take t))
    (by push_cast; omega) (fun k h _ => by omega) (by simp; omega)
  unfold getDataFromRow
  simp only [hp, hlen, hns, if_true]
  rw [if_neg (by push_cast; omega)]
  conv_lhs => rw [hsplit]
  rw [hrun1]
  simp only [List.length_take, List.drop_zero, List.nil_append]
  have hmin : 0 + min t padded.length = t := by omega
  rw [hmin, rowLoop]
  simp only [if_true]
  simp only [List.append_nil] at hrun2
  rw [hrun2]
  simp [rowLoop]

/-- The outcome of `getDataFromRow` for a skip index `s = -1` or `0 <= s <= n` and a row of
at most `n` cells (`n + 1` with a skip index), read off the padded row. -/
theorem getDataFromRow_padded (s : Int) (row : List Cell) (cal : Calendar)
    (hs : s = -1 ∨ (0 ≤ s ∧ s ≤ cal.Data.length))
    (hrow : (row.length : Int) ≤ cal.Data.length + (if s ≥ 0 then 1 else 0)) :
    ∃ res, getDataFromRow s row cal = .ok res ∧ res.WaterName = "" ∧
      res.Data.length = cal.Data.length ∧
      (∀ (j : Nat) (d : Week), cal.Data[j]? = some d →
        ∃ c, (padRow s row cal.Data.length)[if s = -1 ∨ (j : Int) < s then j else j + 1]?
            = some c ∧
          res.Data[j]? = some { d with Stock := ParseFish (cellAsString c) }) ∧
      (∀ (k : Nat) (c : Cell), row.length ≤ k →
        (padRow s row cal.Data.length)[k]? = some c → ParseFish (cellAsString c) = NoneFish) := by
  have hpadNone : ∀ (k : Nat) (c : Cell), row.length ≤ k →
      (padRow s row cal.Data.length)[k]? = some c → ParseFish (cellAsString c) = NoneFish := by
    intro k c hk hc
    unfold padRow at hc
    rw [List.getElem?_append_right hk] at hc
    have hm : c ∈ List.replicate (cal.Data.length + (if s ≥ 0 then 1 else 0) - row.length)
        (Cell.str "") := List.getElem?_mem hc
    rw [(List.mem_replicate.1 hm).2]
    decide
  rcases hs with hs | ⟨hs0, hsn⟩
  · subst hs
    have hrow' : row.length ≤ cal.Data.length := by simpa using hrow
    have hlen : (padRow (-1) row cal.Data.length).length = cal.Data.length := by
      rw [padRow_length]; simp; omega
    refine ⟨_, getDataFromRow_noskip (-1) row cal (by omega) hrow', rfl, ?_, ?_, hpadNone⟩
    · simp [hlen]
    · intro j d hd
      have hj : j < cal.Data.length := (List.getElem?_eq_some.1 hd).1
      have hjp : j < (padRow (-1) row cal.Data.length).length := by omega
      refine ⟨(padRow (-1) row cal.Data.length)[j], by simp [List.getElem?_eq_getElem hjp], ?_⟩
      exact getElem?_zipWith_annotate _ _ j d _ hd (List.getElem?_eq_getElem hjp)
  · obtain ⟨t, rfl⟩ := Int.eq_ofNat_of_zero_le hs0
    have ht : t ≤ cal.Data.length := by omega
    have hge : (t : Int) ≥ 0 := by omega
    have hrow' : row.length ≤ cal.Data.length + 1 := by
      simp only [hge, if_true] at hrow; omega
    have hlen : (padRow t row cal.Data.length).length = cal.Data.length + 1 := by
      rw [padRow_length]; simp [hge]; omega
    refine ⟨_, getDataFromRow_skip t row cal ht hrow', rfl, ?_, ?_, hpadNone⟩
    · simp [hlen]; omega
    · intro j d hd
      have hj : j < cal.Data.length := (List.getElem?_eq_some.1 hd).1
      have hne : ¬ ((t : Int) = -1) := by omega
      by_cases hjt : j < t
      · have hjp : j < (padRow t row cal.Data.length).length := by omega
        have hcond : (t : Int) = -1 ∨ (j : Int) < t := Or.inr (by omega)
        refine ⟨(padRow t row cal.Data.length)[j], by
          simp only [hcond, if_true, List.getElem?_eq_getElem hjp], ?_⟩
        have hl1 : j < (List.zipWith annotate cal.Data
            ((padRow t row cal.Data.length).take t)).length := by
          simp [hlen]; omega
        rw [List.getElem?_append_left hl1]
        exact getElem?_zipWith_annotate _ _ j d _ hd
          (by rw [List.getElem?_take_of_lt hjt, List.getElem?_eq_getElem hjp])
      · have hjp : j + 1 < (padRow t row cal.Data.length).length := by omega
        have hcond : ¬ ((t : Int) = -1 ∨ (j : Int) < t) := by
          intro h; rcases h with h | h <;> omega
        refine ⟨(padRow t row cal.Data.length)[j + 1], by
          simp only [hcond, if_false, List.getElem?_eq_getElem hjp], ?_⟩
        have hl1 : (List.zipWith annotate cal.Data
            ((padRow t row cal.Data.length).take t)).length ≤ j := by
          simp [hlen]; omega
        have hl2 : (List.zipWith annotate cal.Data
            ((padRow t row cal.Data.length).take t)).length = t := by
          simp [hlen]; omega
        rw [List.getElem?_append_right hl1, hl2]
        apply getElem?_zipWith_annotate
        · rw [List.getElem?_drop]
          rw [show t + (j - t) = j by omega]
          exact hd
        · rw [List.getElem?_drop]
          rw [show t + 1 + (j - t) = j + 1 by omega]
          exact List.getElem?_eq_getElem hjp

theorem padRow_getElem?_lt (s : Int) (row : List Cell) (n k : Nat) (hk : k < row.length) :
    (padRow s row n)[k]? = row[k]? := by
  unfold padRow
  exact List.getElem?_append_left hk

theorem padRow_getElem?_ge (s : Int) (row : List Cell) (n k : Nat) (hk : row.length ≤ k)
    (hkn : k < n + (if s ≥ 0 then 1 else 0)) :
    (padRow s row n)[k]? = some (Cell.str "") := by
  unfold padRow
  rw [List.getElem?_append_right hk, List.getElem?_replicate, if_pos (by omega)]

/-- C4. For a skip index `s = -1` or `0 <= s <= n` and a row of at most `n` cells (`n + 1`
with a skip index), `getDataFromRow` returns a calendar with an unset water name and
exactly `n` entries; entry `j` is axis entry `j` with its Stock replaced by `ParseFish` of
the trimmed text (`strings.TrimSpace`; empty for a cell that is no text) of row cell `j`
(when `s = -1` or `j < s`) or `j + 1` (when `s <= j`), so the cell at the skip index
consumes no axis position; a position past the end of the row is a cell added by the
padding and classifies as None.  The padded row is the row followed by empty texts up to
`n` (`n + 1`) cells.  In the example of axis length 5, skip index 2 and 6 cells, the cells
"x", "", "skipped", "c", a number and " T " give Trout, None, Catfish, None, Trout; tabs,
line ends, no-break and ideographic spaces are trimmed, a zero-width space is not. -/
theorem getDataFromRow_alignment (s : Int) (row : List Cell) (cal : Calendar)
    (hs : s = -1 ∨ (0 ≤ s ∧ s ≤ cal.Data.length))
    (hrow : (row.length : Int) ≤ cal.Data.length + (if s ≥ 0 then 1 else 0)) :
    (∃ res, getDataFromRow s row cal = .ok res ∧ res.WaterName = "" ∧
      res.Data.length = cal.Data.length ∧
      (∀ (j : Nat) (d : Week), cal.Data[j]? = some d →
        res.Data[j]? = some { d with
          Stock := ParseFish (match row[if s = -1 ∨ (j : Int) < s then j else j + 1]? with
            | some (.str text) => TrimSpace text
            | some .other => ""
            | none => "") }) ∧
      (∀ (j : Nat) (d : Week), cal.Data[j]? = some d →
        row.length ≤ (if s = -1 ∨ (j : Int) < s then j else j + 1) →
        res.Data[j]? = some { d with Stock := NoneFish }) ∧
      (∀ (j : Nat) (d : Week), cal.Data[j]? = some d →
        ∃ c, (padRow s row cal.Data.length)[if s = -1 ∨ (j : Int) < s then j else j + 1]?
            = some c ∧
          res.Data[j]? = some { d with Stock := ParseFish (cellAsString c) })) ∧
    (padRow s row cal.Data.length).length = cal.Data.length + (if s ≥ 0 then 1 else 0) ∧
    (∀ k : Nat, k < row.length → (padRow s row cal.Data.length)[k]? = row[k]?) ∧
    (∀ k : Nat, row.length ≤ k → k < cal.Data.length + (if s ≥ 0 then 1 else 0) →
      (padRow s row cal.Data.length)[k]? = some (Cell.str "")) ∧
    (∀ text : String, ∃ pre post : List Char,
      (∀ c ∈ pre, isSpace c = true) ∧ (∀ c ∈ post, isSpace c = true) ∧
      text.data = pre ++ (TrimSpace text).data ++ post ∧
      (∀ c, (TrimSpace text).data.head? = some c → isSpace c = false) ∧
      (∀ c, (TrimSpace text).data.getLast? = some c → isSpace c = false)) ∧
    getDataFromRow 2 [.str "x", .str "", .str "skipped", .str "c", .other, .str " T "]
        ⟨"", [⟨1, 1, 2024, ""⟩, ⟨1, 8, 2024, ""⟩, ⟨1, 15, 2024, ""⟩, ⟨1, 22, 2024, ""⟩,
          ⟨1, 29, 2024, ""⟩]⟩ =
      .ok ⟨"", [⟨1, 1, 2024, Trout⟩, ⟨1, 8, 2024, NoneFish⟩, ⟨1, 15, 2024, Catfish⟩,
        ⟨1, 22, 2024, NoneFish⟩, ⟨1, 29, 2024, Trout⟩]⟩ ∧
    getDataFromRow (-1) [.str "\t c \n", .str "?"]
        ⟨"", [⟨1, 1, 2024, ""⟩, ⟨1, 8, 2024, ""⟩, ⟨1, 15, 2024, ""⟩]⟩ =
      .ok ⟨"", [⟨1, 1, 2024, Catfish⟩, ⟨1, 8, 2024, UnknownFish⟩, ⟨1, 15, 2024, NoneFish⟩]⟩ ∧
    getDataFromRow (-1) [.str "\u00a0x\u3000", .str "\u200bx", .str "\u0085\u2003"]
        ⟨"", [⟨1, 1, 2024, ""⟩, ⟨1, 8, 2024, ""⟩, ⟨1, 15, 2024, ""⟩]⟩ =
      .ok ⟨"", [⟨1, 1, 2024, Trout⟩, ⟨1, 8, 2024, UnknownFish⟩, ⟨1, 15, 2024, NoneFish⟩]⟩ := by
  have hplen : (padRow s row cal.Data.length).length =
      cal.Data.length + (if s ≥ 0 then 1 else 0) := by
    rw [padRow_length]
    have : row.length ≤ cal.Data.length + (if s ≥ 0 then 1 else 0) := by
      split_ifs at hrow ⊢ <;> omega
    omega
  obtain ⟨res, hres, hname, hlen, hidx, _⟩ := getDataFromRow_padded s row cal hs hrow
  have hdirect : ∀ (j : Nat) (d : Week), cal.Data[j]? = some d →
      res.Data[j]? = some { d with
        Stock := ParseFish (match row[if s = -1 ∨ (j : Int) < s then j else j + 1]? with
          | some (.str text) => TrimSpace text
          | some .other => ""
          | none => "") } := by
    intro j d hd
    obtain ⟨c, hc, hrj⟩ := hidx j d hd
    rw [hrj]
    generalize (if s = -1 ∨ (j : Int) < s then j else j + 1) = idx at hc ⊢
    rcases Nat.lt_or_ge idx row.length with hlt | hge
    · rw [padRow_getElem?_lt s row _ idx hlt] at hc
      rw [hc]
      cases c <;> rfl
    · have hin : idx < (padRow s row cal.Data.length).length :=
        (List.getElem?_eq_some.1 hc).1
      rw [hplen] at hin
      rw [padRow_getElem?_ge s row _ idx hge hin] at hc
      simp only [Option.some.injEq] at hc
      subst hc
      rw [List.getElem?_eq_none hge]
      rfl
  refine ⟨⟨res, hres, hname, hlen, hdirect, ?_, hidx⟩, hplen,
    fun k hk => padRow_getElem?_lt s row _ k hk,
    fun k hk hkn => padRow_getElem?_ge s row _ k hk hkn, TrimSpace_spec, by decide, by decide,
    by decide⟩
  intro j d hd hge
  rw [hdirect j d hd, List.getElem?_eq_none hge]
  rfl

/-- Witness for C4: axis length 5, skip index 2, a 6-cell row. -/
theorem getDataFromRow_alignment_witness :
    ∃ res, getDataFromRow 2
        [.str "x", .str "", .str "skipped", .str "c", .other, .str " T "]
        ⟨"", [⟨1, 1, 2024, ""⟩, ⟨1, 8, 2024, ""⟩, ⟨1, 15, 2024, ""⟩, ⟨1, 22, 2024, ""⟩,
          ⟨1, 29, 2024, ""⟩]⟩ = .ok res ∧ res.Data.length = 5 :=
  let ⟨res, h, _, hl, _⟩ := (getDataFromRow_alignment 2
    [.str "x", .str "", .str "skipped", .str "c", .other, .str " T "]
    ⟨"", [⟨1, 1, 2024, ""⟩, ⟨1, 8, 2024, ""⟩, ⟨1, 15, 2024, ""⟩, ⟨1, 22, 2024, ""⟩,
      ⟨1, 29, 2024, ""⟩]⟩ (Or.inr (by decide)) (by decide)).1
  ⟨res, h, hl⟩

/-- A run of cells clear of the skip index that is longer than what is left of the axis
ends in an index-out-of-range panic. -/
theorem rowLoop_overrun (s : Int) (dates : List Week) (sk : Int) :
    ∀ (cells : List Cell) (i o : Nat) (data : List Week),
      (i : Int) - sk = o →
      (∀ k : Nat, i ≤ k → k < i + cells.length → (k : Int) ≠ s) →
      o ≤ dates.length → dates.length < o + cells.length →
      rowLoop s dates cells i sk data = .panic := by
  intro cells
  induction cells with
  | nil => intro i o data _ _ h1 h2; simp at h2; omega
  | cons c cells ih =>
    intro i o data hio hskip h1 h2
    have hi : (i : Int) ≠ s := hskip i (Nat.le_refl i) (by simp)
    have hj : ¬ ((i : Int) - sk < 0) := by omega
    rw [rowLoop]
    simp only [hi, if_false, hj, hio, Int.toNat_ofNat]
    rcases Nat.lt_or_ge o dates.length with ho | ho
    · rw [List.getElem?_eq_getElem ho]
      exact ih (i + 1) (o + 1) _ (by push_cast; omega)
        (fun k h1 h2 => hskip k (by omega) (by simp; omega)) (by omega)
        (by simp at h2; omega)
    · rw [List.getElem?_eq_none ho]
      simp

/-- With a skip index beyond the axis length, every row that passes the length check makes
`getDataFromRow` panic: the skip index is never met, so one cell too many is aligned. -/
theorem getDataFromRow_skip_beyond_axis (s : Int) (row : List Cell) (cal : Calendar)
    (hs : (cal.Data.length : Int) < s) (hrow : row.length ≤ cal.Data.length + 1) :
    getDataFromRow s row cal = .panic := by
  have hns : s ≥ 0 := by omega
  have hlen : (padRow s row cal.Data.length).length = cal.Data.length + 1 := by
    rw [padRow_length]; simp [hns]; omega
  have hrun := rowLoop_overrun s cal.Data 0 (padRow s row cal.Data.length) 0 0 []
    (by simp) (fun k _ h => by omega) (by omega) (by omega)
  unfold getDataFromRow
  simp only [hlen, hns, if_true]
  rw [if_neg (by push_cast; omega), hrun]

/-- C3 (the code departs from the claim). With skip index 5, an axis of 3 dates and a row
of 2 cells, the cell count less the skipped one is 1 <= 3, yet `getDataFromRow` neither
succeeds nor returns the length-mismatch error: it panics with an index out of range. -/
theorem getDataFromRow_panics_on_short_axis :
    getDataFromRow 5 [.str "x", .str "c"]
      ⟨"", [⟨1, 1, 2024, ""⟩, ⟨1, 8, 2024, ""⟩, ⟨1, 15, 2024, ""⟩]⟩ = .panic := by
  decide

/-! ## Ranking -/

theorem stringsCompare_le_iff (a b : String) : stringsCompare a b ≤ 0 ↔ a ≤ b := by
  unfold stringsCompare
  by_cases h : a = b
  · simp [h]
  · by_cases h2 : a.data < b.data
    · have h3 : a < b := String.lt_iff_toList_lt.2 h2
      rw [if_neg h, if_pos h2]
      simp [le_of_lt h3]
    · have h3 : ¬ a < b := fun h' => h2 (String.lt_iff_toList_lt.1 h')
      have h4 : ¬ a ≤ b := fun h' => h3 (lt_of_le_of_ne h' h)
      rw [if_neg h, if_neg h2]
      simp [h4]

/-- The comparison closure says "not after" exactly for the order by date (ascending for
`next`, descending otherwise) and then by ascending name. -/
theorem compareEntries_le_iff (next : Bool) (a b : String × Week) :
    compareEntries next a b ≤ 0 ↔
      ((if next then a.2.Time < b.2.Time else b.2.Time < a.2.Time) ∨
        (a.2.Time = b.2.Time ∧ a.1 ≤ b.1)) := by
  have hs := stringsCompare_le_iff a.1 b.1
  unfold compareEntries timeCompare
  cases next
  · simp only [Bool.false_eq_true, if_false]
    rcases lt_trichotomy a.2.Time b.2.Time with h | h | h
    · have h1 : ¬ b.2.Time < a.2.Time := by omega
      have h2 : ¬ a.2.Time = b.2.Time := by omega
      simp [h, h1, h2]
    · have h1 : ¬ b.2.Time < a.2.Time := by omega
      simp [h, hs]
    · have h1 : ¬ a.2.Time < b.2.Time := by omega
      simp [h, h1]
  · simp only [if_true]
    rcases lt_trichotomy a.2.Time b.2.Time with h | h | h
    · simp [h]
    · simp [h, hs]
    · have h1 : ¬ a.2.Time < b.2.Time := by omega
      have h2 : ¬ a.2.Time = b.2.Time := by omega
      simp [h, h1, h2]

theorem compareEntries_total (next : Bool) (a b : String × Week) :
    compareEntries next a b ≤ 0 ∨ compareEntries next b a ≤ 0 := by
  rw [compareEntries_le_iff, compareEntries_le_iff]
  rcases lt_trichotomy a.2.Time b.2.Time with h | h | h
  · cases next
    · right; left; simpa using h
    · left; left; simpa using h
  · rcases le_total a.1 b.1 with h1 | h1
    · left; right; exact ⟨h, h1⟩
    · right; right; exact ⟨h.symm, h1⟩
  · cases next
    · left; left; simpa using h
    · right; left; simpa using h

theorem compareEntries_trans (next : Bool) (a b c : String × Week)
    (hab : compareEntries next a b ≤ 0) (hbc : compareEntries next b c ≤ 0) :
    compareEntries next a c ≤ 0 := by
  rw [compareEntries_le_iff] at hab hbc ⊢
  cases next
  · simp only [Bool.false_eq_true, if_false] at hab hbc ⊢
    rcases hab with h1 | ⟨h1, n1⟩ <;> rcases hbc with h2 | ⟨h2, n2⟩
    · left; omega
    · left; omega
    · left; omega
    · right; exact ⟨by omega, le_trans n1 n2⟩
  · simp only [if_true] at hab hbc ⊢
    rcases hab with h1 | ⟨h1, n1⟩ <;> rcases hbc with h2 | ⟨h2, n2⟩
    · left; omega
    · left; omega
    · left; omega
    · right; exact ⟨by omega, le_trans n1 n2⟩

/-- The outcome of `SortFunc` with the closure of `sortNextOrRecent` is sorted. -/
theorem SortFunc_compareEntries_sorted (next : Bool) (l : List (String × Week)) :
    List.Sorted (fun a b => compareEntries next a b ≤ 0) (SortFunc l (compareEntries next)) := by
  haveI : IsTotal (String × Week) (fun a b => compareEntries next a b ≤ 0) :=
    ⟨compareEntries_total next⟩
  haveI : IsTrans (String × Week) (fun a b => compareEntries next a b ≤ 0) :=
    ⟨compareEntries_trans next⟩
  exact List.sorted_insertionSort _ l

theorem SortFunc_perm {α : Type} (l : List α) (cmp : α → α → Int) :
    List.Perm (SortFunc l cmp) l :=
  List.perm_insertionSort _ l

/-- C7. In the outcome of `SortNext` every adjacent pair `(a, b)` has `a` dated earlier
than `b`, or the same date and the name of `a` lexically at most that of `b`; in the
outcome of `SortLast` every adjacent pair has `a` dated later than `b`, or the same date
and the name of `a` lexically at most that of `b`.  Water A stocked next in 3 days and B in
1 day are ranked B, A. -/
theorem sortNextOrRecent_order (data : List (String × Calendar)) (now : Int) :
    List.Chain' (fun a b => a.2.Time < b.2.Time ∨ (a.2.Time = b.2.Time ∧ a.1 ≤ b.1))
      (SortNext data now) ∧
    List.Chain' (fun a b => b.2.Time < a.2.Time ∨ (a.2.Time = b.2.Time ∧ a.1 ≤ b.1))
      (SortLast data now) ∧
    SortNext [("A", ⟨"A", [⟨1, 13, 2024, Trout⟩]⟩), ("B", ⟨"B", [⟨1, 11, 2024, Trout⟩]⟩)]
        (Week.Time ⟨1, 10, 2024, ""⟩) =
      [("B", ⟨1, 11, 2024, Trout⟩), ("A", ⟨1, 13, 2024, Trout⟩)] := by
  refine ⟨?_, ?_, by decide⟩
  · have h := SortFunc_compareEntries_sorted true (collectWeeks data true now)
    refine (List.Pairwise.chain' h).imp ?_
    intro a b hab
    simpa using (compareEntries_le_iff true a b).1 hab
  · have h := SortFunc_compareEntries_sorted false (collectWeeks data false now)
    refine (List.Pairwise.chain' h).imp ?_
    intro a b hab
    simpa using (compareEntries_le_iff false a b).1 hab

/-- Witness for C7: two waters with the same next date are ranked by name. -/
theorem sortNextOrRecent_order_witness :
    List.Chain' (fun a b => a.2.Time < b.2.Time ∨ (a.2.Time = b.2.Time ∧ a.1 ≤ b.1))
      (SortNext [("B", ⟨"B", [⟨1, 11, 2024, Trout⟩]⟩), ("A", ⟨"A", [⟨1, 11, 2024, Trout⟩]⟩)]
        0) ∧
    SortNext [("B", ⟨"B", [⟨1, 11, 2024, Trout⟩]⟩), ("A", ⟨"A", [⟨1, 11, 2024, Trout⟩]⟩)] 0 =
      [("A", ⟨1, 11, 2024, Trout⟩), ("B", ⟨1, 11, 2024, Trout⟩)] :=
  ⟨(sortNextOrRecent_order
    [("B", ⟨"B", [⟨1, 11, 2024, Trout⟩]⟩), ("A", ⟨"A", [⟨1, 11, 2024, Trout⟩]⟩)] 0).1,
    by decide⟩

theorem nextLoop_zero_or_mem (now : Int) (l : List Week) :
    nextLoop now l = Week.zero ∨ nextLoop now l ∈ l := by
  induction l with
  | nil => left; rfl
  | cons a l ih =>
    rw [nextLoop]
    split_ifs
    · rcases ih with h | h
      · left; exact h
      · right; exact List.mem_cons_of_mem _ h
    · right; exact List.mem_cons_self _ _
    · rcases ih with h | h
      · left; exact h
      · right; exact List.mem_cons_of_mem _ h

theorem lastLoop_zero_or_mem (now : Int) (l : List Week) :
    lastLoop now l = Week.zero ∨ lastLoop now l ∈ l := by
  induction l with
  | nil => left; rfl
  | cons a l ih =>
    rw [lastLoop]
    split_ifs
    · rcases ih with h | h
      · left; exact h
      · right; exact List.mem_cons_of_mem _ h
    · right; exact List.mem_cons_self _ _
    · rcases ih with h | h
      · left; exact h
      · right; exact List.mem_cons_of_mem _ h

/-- The week `getWeek` returns is the zero value or an entry of the calendar. -/
theorem getWeek_zero_or_mem (calendar : Calendar) (next : Bool) (now : Int) :
    getWeek calendar next now = Week.zero ∨ getWeek calendar next now ∈ calendar.Data := by
  cases next
  · rcases lastLoop_zero_or_mem now calendar.Data.reverse with h | h
    · left; exact h
    · right; exact List.mem_reverse.1 h
  · exact nextLoop_zero_or_mem now calendar.Data

theorem mem_collectWeeks (data : List (String × Calendar)) (next : Bool) (now : Int)
    (name : String) (w : Week) :
    (name, w) ∈ collectWeeks data next now ↔
      ∃ cal, (name, cal) ∈ data ∧ w = getWeek cal next now ∧ w.Year ≠ 0 := by
  unfold collectWeeks
  rw [List.mem_filterMap]
  constructor
  · rintro ⟨⟨n, cal⟩, hmem, h⟩
    by_cases hy : (getWeek cal next now).Year = 0
    · simp [hy] at h
    · simp only [hy, if_false, Option.some.injEq, Prod.mk.injEq] at h
      obtain ⟨rfl, rfl⟩ := h
      exact ⟨cal, hmem, rfl, hy⟩
  · rintro ⟨cal, hmem, rfl, hy⟩
    exact ⟨(name, cal), hmem, by simp [hy]⟩

theorem collectWeeks_names_sublist (data : List (String × Calendar)) (next : Bool)
    (now : Int) :
    List.Sublist ((collectWeeks data next now).map Prod.fst) (data.map Prod.fst) := by
  induction data with
  | nil => simp [collectWeeks]
  | cons p data ih =>
    obtain ⟨n, cal⟩ := p
    unfold collectWeeks at ih ⊢
    by_cases hy : (getWeek cal next now).Year = 0
    · simp only [List.filterMap_cons, hy, if_true, List.map_cons]
      exact List.Sublist.cons _ ih
    · simp only [List.filterMap_cons, hy, if_false, List.map_cons]
      exact List.Sublist.cons₂ _ ih

theorem collectWeeks_length (data : List (String × Calendar)) (next : Bool) (now : Int) :
    (collectWeeks data next now).length =
      (data.filter fun p => decide ((getWeek p.2 next now).Year ≠ 0)).length := by
  induction data with
  | nil => simp [collectWeeks]
  | cons p data ih =>
    obtain ⟨n, cal⟩ := p
    unfold collectWeeks at ih ⊢
    by_cases hy : (getWeek cal next now).Year = 0
    · simp only [List.filterMap_cons, hy, if_true]
      rw [List.filter_cons_of_neg (by simp [hy])]
      exact ih
    · simp only [List.filterMap_cons, hy, if_false]
      rw [List.filter_cons_of_pos (by simp [hy])]
      simp only [List.length_cons]
      rw [ih]

/-- C8 (as amended). For a map of calendars (distinct keys), in both directions, the
outcome of `sortNextOrRecent` holds the pair (key, week) exactly for the waters whose
Next (resp. Last) week has a non-zero Year, that week being the very result of Next
(resp. Last); no key occurs twice, the length is the number of such waters, and a water
whose result is the zero value `Week{}` has no element.  When no calendar entry has Year 0,
the weeks with a non-zero Year are exactly the results other than `Week{}`.  For a water
stocked on 5 and 12 January and an all-None water, on 8 January `SortNext` holds the entry
of the 12th only and `SortLast` the entry of the 5th only. -/
theorem sortNextOrRecent_membership (data : List (String × Calendar)) (next : Bool)
    (now : Int) (hkeys : (data.map Prod.fst).Nodup) :
    (∀ (name : String) (w : Week), (name, w) ∈ sortNextOrRecent data next now ↔
      ∃ cal, (name, cal) ∈ data ∧ w = getWeek cal next now ∧ w.Year ≠ 0) ∧
    ((sortNextOrRecent data next now).map Prod.fst).Nodup ∧
    (sortNextOrRecent data next now).length =
      (data.filter fun p => decide ((getWeek p.2 next now).Year ≠ 0)).length ∧
    (∀ (name : String) (cal : Calendar), (name, cal) ∈ data →
      getWeek cal next now = Week.zero →
      name ∉ (sortNextOrRecent data next now).map Prod.fst) ∧
    ((∀ p ∈ data, ∀ w ∈ p.2.Data, w.Year ≠ 0) →
      ∀ p ∈ data, ((getWeek p.2 next now).Year ≠ 0 ↔ getWeek p.2 next now ≠ Week.zero)) ∧
    SortNext data now = sortNextOrRecent data true now ∧
    SortLast data now = sortNextOrRecent data false now ∧
    SortNext [("A", ⟨"A", [⟨1, 5, 2024, Trout⟩, ⟨1, 12, 2024, Catfish⟩]⟩),
        ("B", ⟨"B", [⟨1, 5, 2024, NoneFish⟩, ⟨1, 12, 2024, NoneFish⟩]⟩)]
        (Week.Time ⟨1, 8, 2024, ""⟩) = [("A", ⟨1, 12, 2024, Catfish⟩)] ∧
    SortLast [("A", ⟨"A", [⟨1, 5, 2024, Trout⟩, ⟨1, 12, 2024, Catfish⟩]⟩),
        ("B", ⟨"B", [⟨1, 5, 2024, NoneFish⟩, ⟨1, 12, 2024, NoneFish⟩]⟩)]
        (Week.Time ⟨1, 8, 2024, ""⟩) = [("A", ⟨1, 5, 2024, Trout⟩)] := by
  have hperm : List.Perm (sortNextOrRecent data next now) (collectWeeks data next now) :=
    SortFunc_perm _ _
  have hmem : ∀ (name : String) (w : Week), (name, w) ∈ sortNextOrRecent data next now ↔
      ∃ cal, (name, cal) ∈ data ∧ w = getWeek cal next now ∧ w.Year ≠ 0 := by
    intro name w
    rw [hperm.mem_iff]
    exact mem_collectWeeks data next now name w
  refine ⟨hmem, ?_, ?_, ?_, ?_, rfl, rfl, by decide, by decide⟩
  · rw [(hperm.map Prod.fst).nodup_iff]
    exact List.Nodup.sublist (collectWeeks_names_sublist data next now) hkeys
  · rw [hperm.length_eq]
    exact collectWeeks_length data next now
  · intro name cal hcal hzero hin
    obtain ⟨⟨n, w⟩, hw, hn⟩ := List.mem_map.1 hin
    simp only at hn
    subst hn
    obtain ⟨cal2, hcal2, hw2, hy⟩ := (hmem n w).1 hw
    have heq : (n, cal2) = (n, cal) :=
      List.inj_on_of_nodup_map hkeys hcal2 hcal rfl
    have hc : cal2 = cal := (Prod.mk.injEq _ _ _ _ ▸ heq).2
    rw [hw2, hc, hzero] at hy
    exact hy rfl
  · intro hall p hp
    constructor
    · intro hy hz
      rw [hz] at hy
      exact hy rfl
    · intro hne
      rcases getWeek_zero_or_mem p.2 next now with h | h
      · exact absurd h hne
      · exact hall p hp _ h

/-- Witness for C8 as amended: one water with an upcoming stocking, one without. -/
theorem sortNextOrRecent_membership_witness :
    (sortNextOrRecent
      [("A", ⟨"A", [⟨1, 13, 2024, Trout⟩]⟩), ("B", ⟨"B", [⟨1, 11, 2024, NoneFish⟩]⟩)]
      true 0).length = 1 :=
  (sortNextOrRecent_membership
    [("A", ⟨"A", [⟨1, 13, 2024, Trout⟩]⟩), ("B", ⟨"B", [⟨1, 11, 2024, NoneFish⟩]⟩)]
    true 0 (by decide)).2.2.1.trans (by decide)

/-- C8 as stated fails: the calendar of water A has one Trout entry with Year 0; at the Unix
epoch its Last result is that entry, not the zero value `Week{}`, yet `SortLast` returns
no element for A. -/
theorem SortLast_omits_year_zero_result :
    Calendar.Last ⟨"A", [⟨1, 1, 0, Trout⟩]⟩ 0 = ⟨1, 1, 0, Trout⟩ ∧
    Calendar.Last ⟨"A", [⟨1, 1, 0, Trout⟩]⟩ 0 ≠ Week.zero ∧
    SortLast [("A", ⟨"A", [⟨1, 1, 0, Trout⟩]⟩)] 0 = [] := by
  decide

/-! ## Date-axis builder: months, years and length -/

theorem card_filter_Icc_succ (p : Nat → Prop) [DecidablePred p] (k : Nat) :
    ((Finset.Icc 1 (k + 1)).filter p).card =
      ((Finset.Icc 1 k).filter p).card + if p (k + 1) then 1 else 0 := by
  have h : Finset.Icc 1 (k + 1) = insert (k + 1) (Finset.Icc 1 k) := by
    ext x
    simp only [Finset.mem_Icc, Finset.mem_insert]
    omega
  rw [h, Finset.filter_insert]
  by_cases hp : p (k + 1)
  · rw [if_pos hp, if_pos hp, Finset.card_insert_of_not_mem]
    simp
  · rw [if_neg hp, if_neg hp]
    rfl

theorem monthAdvances_zero (ds : List Int) : monthAdvances ds 0 = 0 := by
  simp [monthAdvances]

theorem monthAdvances_succ (ds : List Int) (k : Nat) :
    monthAdvances ds (k + 1) =
      monthAdvances ds k + if ds.getD (k + 1) 0 < ds.getD k 0 then 1 else 0 := by
  unfold monthAdvances
  rw [card_filter_Icc_succ]
  rfl

/-- Month advances of a sequence with one more day in front. -/
theorem monthAdvances_cons (a : Int) (ds : List Int) (k : Nat) :
    monthAdvances (a :: ds) (k + 1) =
      (if ds.getD 0 0 < a then 1 else 0) + monthAdvances ds k := by
  induction k with
  | zero =>
    rw [monthAdvances_succ, monthAdvances_zero, monthAdvances_zero]
    simp only [List.getD_cons_succ, List.getD_cons_zero]
    omega
  | succ k ih =>
    rw [monthAdvances_succ, ih, monthAdvances_succ]
    simp only [List.getD_cons_succ]
    omega

theorem yearAdvancesFrom_zero (months : List Int) (i0 : Nat) (ds : List Int) :
    yearAdvancesFrom months i0 ds 0 = 0 := by
  simp [yearAdvancesFrom]

theorem yearAdvancesFrom_succ (months : List Int) (i0 : Nat) (ds : List Int) (k : Nat) :
    yearAdvancesFrom months i0 ds (k + 1) =
      yearAdvancesFrom months i0 ds k +
        if ds.getD (k + 1) 0 < ds.getD k 0 ∧
          months[i0 + monthAdvances ds (k + 1)]? = some January ∧
          months[i0 + monthAdvances ds (k + 1) - 1]? = some December then 1 else 0 := by
  unfold yearAdvancesFrom
  rw [card_filter_Icc_succ]
  rfl

/-- Year advances of a sequence with one more day in front. -/
theorem yearAdvancesFrom_cons (months : List Int) (i0 : Nat) (a : Int) (ds : List Int)
    (k : Nat) :
    yearAdvancesFrom months i0 (a :: ds) (k + 1) =
      (if ds.getD 0 0 < a ∧ months[i0 + 1]? = some January ∧ months[i0]? = some December
        then 1 else 0) +
      yearAdvancesFrom months (i0 + if ds.getD 0 0 < a then 1 else 0) ds k := by
  induction k with
  | zero =>
    rw [yearAdvancesFrom_succ, yearAdvancesFrom_zero, yearAdvancesFrom_zero,
      monthAdvances_cons, monthAdvances_zero]
    simp only [List.getD_cons_succ, List.getD_cons_zero]
    by_cases h : ds.getD 0 0 < a
    · simp only [h, if_true, true_and, Nat.add_sub_cancel, Nat.add_zero, Nat.zero_add]
    · simp only [h, if_false, false_and, Nat.add_zero]
  | succ k ih =>
    rw [yearAdvancesFrom_succ, ih, yearAdvancesFrom_succ, monthAdvances_cons]
    simp only [List.getD_cons_succ]
    have e : i0 + ((if ds.getD 0 0 < a then 1 else 0) + monthAdvances ds (k + 1)) =
        i0 + (if ds.getD 0 0 < a then 1 else 0) + monthAdvances ds (k + 1) := by omega
    rw [e]
    omega

theorem yearAdvancesFrom_base (months : List Int) (ds : List Int) (k : Nat) :
    yearAdvancesFrom months 0 ds k = yearAdvances months ds k := by
  simp [yearAdvancesFrom, yearAdvances]

/-- A day string that does not parse leaves the loop state as it is. -/
theorem initLoop_cons_none (months : List Int) (date : String) (rest : List String)
    (year : Int) (mi : Nat) (prev : Int) (data : List Week) (h : dayOf date = none) :
    initLoop months (date :: rest) year mi prev data = initLoop months rest year mi prev data := by
  have h1 : Atoi (splitFirst date) = none := h
  rw [initLoop]
  simp only [h1]

/-- One iteration of the loop of `initializeCalendar` on a day string that parses. -/
theorem initLoop_cons_some (months : List Int) (date : String) (rest : List String)
    (year : Int) (mi : Nat) (prev : Int) (data : List Week) (day : Int)
    (h : dayOf date = some day) :
    initLoop months (date :: rest) year mi prev data =
      match months[mi + if day < prev then 1 else 0]? with
      | none => .panic
      | some m =>
        initLoop months rest
          (year + if day < prev ∧ months[mi + 1]? = some January ∧
            months[mi]? = some December then 1 else 0)
          (mi + if day < prev then 1 else 0) day
          (data ++ [⟨m, day, year + if day < prev ∧ months[mi + 1]? = some January ∧
            months[mi]? = some December then 1 else 0, ""⟩]) := by
  have h1 : Atoi (splitFirst date) = some day := h
  rw [initLoop]
  simp only [h1]
  by_cases hb : day < prev
  · simp only [hb, if_true, true_and, isNewYear]
    cases hm : months[mi + 1]? with
    | none => simp
    | some m =>
      simp only [Option.map_some', hm, Nat.add_sub_cancel]
      by_cases hj : m = January
      · by_cases hd : months[mi]? = some December
        · simp [hj, hd]
        · simp [hj, hd]
      · simp [hj]
  · simp only [hb, if_false, false_and, Nat.add_zero, Int.add_zero]

/-- What a successful run of the loop of `initializeCalendar` appends, from any state. -/
theorem initLoop_spec (months : List Int) :
    ∀ (dates : List String) (year : Int) (mi : Nat) (prev : Int) (data out : List Week),
      initLoop months dates year mi prev data = .ok out →
      ∃ E, out = data ++ E ∧ E.length = (dates.filterMap dayOf).length ∧
        ∀ (k : Nat) (d : Int), (dates.filterMap dayOf)[k]? = some d →
          ∃ w, E[k]? = some w ∧ w.Day = d ∧ w.Stock = "" ∧
            months[mi + monthAdvances (prev :: dates.filterMap dayOf) (k + 1)]? =
              some w.Month ∧
            w.Year =
              year + yearAdvancesFrom months mi (prev :: dates.filterMap dayOf) (k + 1) := by
  intro dates
  induction dates with
  | nil =>
    intro year mi prev data out h
    rw [initLoop] at h
    refine ⟨[], ?_, by simp, ?_⟩
    · simp only [Result.ok.injEq] at h
      simp [h]
    · intro k d hk
      simp at hk
  | cons date rest ih =>
    intro year mi prev data out h
    cases hd : dayOf date with
    | none =>
      rw [initLoop_cons_none months date rest year mi prev data hd] at h
      rw [List.filterMap_cons_none hd]
      exact ih year mi prev data out h
    | some day =>
      rw [initLoop_cons_some months date rest year mi prev data day hd] at h
      rw [List.filterMap_cons_some hd]
      cases hm : months[mi + if day < prev then 1 else 0]? with
      | none => rw [hm] at h; cases h
      | some m =>
        rw [hm] at h
        simp only at h
        obtain ⟨E, hE, hlen, hidx⟩ := ih _ _ _ _ _ h
        refine ⟨_ :: E, by rw [hE, List.append_assoc]; rfl, by simp [hlen], ?_⟩
        intro k d hk
        rw [monthAdvances_cons, yearAdvancesFrom_cons]
        simp only [List.getD_cons_zero]
        cases k with
        | zero =>
          simp only [List.getElem?_cons_zero, Option.some.injEq] at hk
          subst hk
          refine ⟨_, List.getElem?_cons_zero, rfl, rfl, ?_, ?_⟩
          · rw [monthAdvances_zero, Nat.add_zero]
            exact hm
          · rw [yearAdvancesFrom_zero]
            simp
        | succ k =>
          simp only [List.getElem?_cons_succ] at hk
          obtain ⟨w, hw, hday, hstock, hmonth, hyear⟩ := hidx k d hk
          refine ⟨w, by simpa using hw, hday, hstock, ?_, ?_⟩
          · rw [← Nat.add_assoc]
            exact hmonth
          · rw [hyear]
            push_cast
            ring

theorem bind_range_nonneg (o : Option Nat) (d : Int)
    (h : (o.bind fun n => if n < 2 ^ 63 then some (n : Int) else none) = some d) : 0 ≤ d := by
  cases o with
  | none => cases h
  | some n =>
    simp only [Option.some_bind] at h
    split_ifs at h
    simp only [Option.some.injEq] at h
    omega

/-- A day number read by `initializeCalendar` is never negative: the text before the
first `-` cannot start with a minus sign. -/
theorem dayOf_nonneg (date : String) (d : Int) (h : dayOf date = some d) : 0 ≤ d := by
  unfold dayOf Atoi at h
  cases hs : (splitFirst date).data with
  | nil => rw [hs] at h; cases h
  | cons c cs =>
    rw [hs] at h
    have hc : c ≠ '-' := by
      have hmem : c ∈ (splitFirst date).data := by rw [hs]; exact List.mem_cons_self _ _
      have := List.mem_takeWhile_imp hmem
      simpa using this
    simp only [hc, if_false] at h
    split_ifs at h with h1 h2
    · exact bind_range_nonneg _ d h
    · exact bind_range_nonneg _ d h

theorem parsedDays_head_nonneg (dayCells : List Cell) :
    ¬ (parsedDays dayCells).getD 0 0 < -1 := by
  cases h : (parsedDays dayCells) with
  | nil => simp
  | cons d ds =>
    have hmem : d ∈ parsedDays dayCells := by rw [h]; exact List.mem_cons_self _ _
    obtain ⟨date, _, hdate⟩ := List.mem_filterMap.1 hmem
    have := dayOf_nonneg date d hdate
    simp only [List.getD_cons_zero]
    omega

/-- The entries of a successfully built axis: entry `k` has the `k`-th parseable day,
the month at index `monthAdvances` of the parsed month list, the base year plus
`yearAdvances`, and an unset Stock. -/
theorem initializeCalendar_entries (monthCells dayCells : List Cell) (year : Int)
    (cal : Calendar) (h : initializeCalendar [monthCells, dayCells] year = .ok cal) :
    cal.WaterName = "" ∧ cal.Data.length = (parsedDays dayCells).length ∧
      ∀ (k : Nat) (d : Int), (parsedDays dayCells)[k]? = some d →
        ∃ w, cal.Data[k]? = some w ∧ w.Day = d ∧ w.Stock = "" ∧
          (parseMonths monthCells)[monthAdvances (parsedDays dayCells) k]? = some w.Month ∧
          w.Year = year + yearAdvances (parseMonths monthCells) (parsedDays dayCells) k := by
  unfold initializeCalendar at h
  simp only at h
  cases hl : initLoop (parseMonths monthCells) (nonEmptyCells dayCells) year 0 (-1) [] with
  | error e => rw [hl] at h; cases h
  | panic => rw [hl] at h; cases h
  | ok data =>
    rw [hl] at h
    simp only [Result.ok.injEq] at h
    subst h
    obtain ⟨E, hE, hlen, hidx⟩ := initLoop_spec _ _ _ _ _ _ _ hl
    simp only [List.nil_append] at hE
    subst hE
    refine ⟨rfl, hlen, ?_⟩
    intro k d hk
    obtain ⟨w, hw, hday, hstock, hmonth, hyear⟩ := hidx k d hk
    have hneg := parsedDays_head_nonneg dayCells
    rw [monthAdvances_cons] at hmonth
    rw [yearAdvancesFrom_cons] at hyear
    unfold parsedDays at hneg
    simp only [hneg, if_false, false_and, Nat.zero_add, Nat.add_zero] at hmonth hyear
    rw [yearAdvancesFrom_base] at hyear
    exact ⟨w, hw, hday, hstock, hmonth, by rw [hyear]; simp [parsedDays]⟩

theorem nonEmptyCells_cons (c : Cell) (cs : List Cell) :
    nonEmptyCells (c :: cs) =
      if cellAsString c = "" then nonEmptyCells cs else cellAsString c :: nonEmptyCells cs := by
  unfold nonEmptyCells
  by_cases h : cellAsString c = ""
  · simp [h]
  · simp [h]

theorem nonEmptyCells_append (xs ys : List Cell) :
    nonEmptyCells (xs ++ ys) = nonEmptyCells xs ++ nonEmptyCells ys := by
  simp [nonEmptyCells]

/-- The parseable day numbers are as many as the day cells with a non-empty text whose
part before the first `-` is accepted by `Atoi`. -/
theorem parsedDays_length (dayCells : List Cell) :
    (parsedDays dayCells).length =
      dayCells.countP fun c =>
        cellAsString c != "" && (Atoi (splitFirst (cellAsString c))).isSome := by
  induction dayCells with
  | nil => rfl
  | cons c cs ih =>
    unfold parsedDays at ih ⊢
    rw [nonEmptyCells_cons, List.countP_cons, ← ih]
    by_cases h : cellAsString c = ""
    · simp [h]
    · cases hd : dayOf (cellAsString c) with
      | none =>
        have hd2 : Atoi (splitFirst (cellAsString c)) = none := hd
        simp [h, hd, hd2]
      | some d =>
        have hd2 : Atoi (splitFirst (cellAsString c)) = some d := hd
        simp [h, hd, hd2]

/-- A day string that does not parse can be deleted anywhere in the row. -/
theorem initLoop_delete (months : List Int) (t : String) (post : List String)
    (ht : dayOf t = none) :
    ∀ (pre : List String) (year : Int) (mi : Nat) (prev : Int) (data : List Week),
      initLoop months (pre ++ t :: post) year mi prev data =
        initLoop months (pre ++ post) year mi prev data := by
  intro pre
  induction pre with
  | nil =>
    intro year mi prev data
    exact initLoop_cons_none months t post year mi prev data ht
  | cons x pre ih =>
    intro year mi prev data
    rw [List.cons_append, List.cons_append]
    cases hx : dayOf x with
    | none => rw [initLoop_cons_none _ _ _ _ _ _ _ hx, initLoop_cons_none _ _ _ _ _ _ _ hx, ih]
    | some day =>
      rw [initLoop_cons_some _ _ _ _ _ _ _ _ hx, initLoop_cons_some _ _ _ _ _ _ _ _ hx]
      cases months[mi + if day < prev then 1 else 0]? with
      | none => rfl
      | some m => exact ih _ _ _ _

/-- Deleting from the day row a cell that yields no day number does not change the
outcome of `initializeCalendar`. -/
theorem initializeCalendar_delete (monthCells pre post : List Cell) (c : Cell) (year : Int)
    (hc : dayOf (cellAsString c) = none) :
    initializeCalendar [monthCells, pre ++ c :: post] year =
      initializeCalendar [monthCells, pre ++ post] year := by
  have hne : nonEmptyCells (pre ++ c :: post) = nonEmptyCells (pre ++ post) ∨
      nonEmptyCells (pre ++ c :: post) =
        nonEmptyCells pre ++ cellAsString c :: nonEmptyCells post := by
    rw [nonEmptyCells_append, nonEmptyCells_append, nonEmptyCells_cons]
    by_cases h : cellAsString c = ""
    · left; simp [h]
    · right; simp [h]
  unfold initializeCalendar
  simp only
  rcases hne with h | h
  · rw [h]
  · rw [h, initLoop_delete _ _ _ hc, nonEmptyCells_append]

/-- C1. On every header pair on which the builder succeeds, the axis has one entry per
parseable day; the `k`-th entry has Day `d_k` and Month `months[r_k]`, `r_k` being the
number of positions `1 <= j <= k` with `d_j < d_(j-1)`.  The first entry uses `months[0]`,
a day equal to or larger than the one before keeps the month index, a smaller one advances
it by one.  Days 28, 29, 30, 1, 2 with months January, February give Jan 28, Jan 29,
Jan 30, Feb 1, Feb 2. -/
theorem initializeCalendar_month_assignment (monthCells dayCells : List Cell) (year : Int)
    (cal : Calendar) (h : initializeCalendar [monthCells, dayCells] year = .ok cal) :
    cal.Data.length = (parsedDays dayCells).length ∧
    (∀ (k : Nat) (d : Int), (parsedDays dayCells)[k]? = some d →
      ∃ w, cal.Data[k]? = some w ∧ w.Day = d ∧
        (parseMonths monthCells)[monthAdvances (parsedDays dayCells) k]? = some w.Month) ∧
    (∀ w, cal.Data[0]? = some w → (parseMonths monthCells)[0]? = some w.Month) ∧
    (∀ (k : Nat) (d d2 : Int), (parsedDays dayCells)[k]? = some d →
      (parsedDays dayCells)[k + 1]? = some d2 →
      monthAdvances (parsedDays dayCells) (k + 1) =
        monthAdvances (parsedDays dayCells) k + if d2 < d then 1 else 0) ∧
    initializeCalendar
        [[.str "January", .other, .other, .str "February"],
         [.str "28", .str "29", .str "30", .str "1", .str "2"]] year =
      .ok ⟨"", [⟨1, 28, year, ""⟩, ⟨1, 29, year, ""⟩, ⟨1, 30, year, ""⟩, ⟨2, 1, year, ""⟩,
        ⟨2, 2, year, ""⟩]⟩ := by
  obtain ⟨_, hlen, hidx⟩ := initializeCalendar_entries monthCells dayCells year cal h
  refine ⟨hlen, ?_, ?_, ?_, rfl⟩
  · intro k d hk
    obtain ⟨w, hw, hday, _, hmonth, _⟩ := hidx k d hk
    exact ⟨w, hw, hday, hmonth⟩
  · intro w hw
    have h0 : 0 < (parsedDays dayCells).length := by
      rw [← hlen]
      exact (List.getElem?_eq_some.1 hw).1
    obtain ⟨w2, hw2, _, _, hmonth, _⟩ := hidx 0 _ (List.getElem?_eq_getElem h0)
    rw [hw] at hw2
    simp only [Option.some.injEq] at hw2
    subst hw2
    rw [monthAdvances_zero] at hmonth
    exact hmonth
  · intro k d d2 hk hk2
    rw [monthAdvances_succ]
    simp only [List.getD_eq_getElem?_getD, hk, hk2, Option.getD_some]

/-- Witness for C1: the fourth entry of the rollover example. -/
theorem initializeCalendar_month_assignment_witness :
    ∃ w, (Calendar.mk "" [⟨1, 28, 2024, ""⟩, ⟨1, 29, 2024, ""⟩, ⟨1, 30, 2024, ""⟩,
        ⟨2, 1, 2024, ""⟩, ⟨2, 2, 2024, ""⟩]).Data[3]? = some w ∧ w.Day = 1 ∧
      (parseMonths [.str "January", .other, .other, .str "February"])[monthAdvances
        (parsedDays [.str "28", .str "29", .str "30", .str "1", .str "2"]) 3]? =
        some w.Month :=
  (initializeCalendar_month_assignment
    [.str "January", .other, .other, .str "February"]
    [.str "28", .str "29", .str "30", .str "1", .str "2"] 2024
    ⟨"", [⟨1, 28, 2024, ""⟩, ⟨1, 29, 2024, ""⟩, ⟨1, 30, 2024, ""⟩, ⟨2, 1, 2024, ""⟩,
      ⟨2, 2, 2024, ""⟩]⟩ (by decide)).2.1 3 1 (by decide)

/-- C2. On every header pair on which the builder succeeds, the `k`-th entry has Year
`Y + yearAdvances`: the base year plus the number of month advances at or before position
`k` whose new month is January with December right before it in the parsed month list.
Months December, January with days 30, 31, 1, 2 give Dec 30 Y, Dec 31 Y, Jan 1 (Y+1),
Jan 2 (Y+1). -/
theorem initializeCalendar_year_rollover (monthCells dayCells : List Cell) (year : Int)
    (cal : Calendar) (h : initializeCalendar [monthCells, dayCells] year = .ok cal) :
    cal.Data.length = (parsedDays dayCells).length ∧
    (∀ (k : Nat) (d : Int), (parsedDays dayCells)[k]? = some d →
      ∃ w, cal.Data[k]? = some w ∧
        w.Year = year + yearAdvances (parseMonths monthCells) (parsedDays dayCells) k) ∧
    initializeCalendar
        [[.str "December", .other, .str "January"],
         [.str "30", .str "31", .str "1", .str "2"]] year =
      .ok ⟨"", [⟨12, 30, year, ""⟩, ⟨12, 31, year, ""⟩, ⟨1, 1, year + 1, ""⟩,
        ⟨1, 2, year + 1, ""⟩]⟩ := by
  obtain ⟨_, hlen, hidx⟩ := initializeCalendar_entries monthCells dayCells year cal h
  refine ⟨hlen, ?_, rfl⟩
  intro k d hk
  obtain ⟨w, hw, _, _, _, hyear⟩ := hidx k d hk
  exact ⟨w, hw, hyear⟩

/-- Witness for C2: the third entry of the year-rollover example. -/
theorem initializeCalendar_year_rollover_witness :
    ∃ w, (Calendar.mk "" [⟨12, 30, 2024, ""⟩, ⟨12, 31, 2024, ""⟩, ⟨1, 1, 2025, ""⟩,
        ⟨1, 2, 2025, ""⟩]).Data[2]? = some w ∧
      w.Year = (2024 : Int) +
        yearAdvances (parseMonths [.str "December", .other, .str "January"])
          (parsedDays [.str "30", .str "31", .str "1", .str "2"]) 2 :=
  (initializeCalendar_year_rollover
    [.str "December", .other, .str "January"]
    [.str "30", .str "31", .str "1", .str "2"] 2024
    ⟨"", [⟨12, 30, 2024, ""⟩, ⟨12, 31, 2024, ""⟩, ⟨1, 1, 2025, ""⟩, ⟨1, 2, 2025, ""⟩]⟩
    (by decide)).2.1 2 1 (by decide)

/-- The count of the day cells that yield a day number, spelled out on the cells: the texts
whose trimmed form is not empty and has a part before the first `-` that `Atoi` accepts. -/
theorem countP_day_cells (dayCells : List Cell) :
    (dayCells.countP fun c =>
      cellAsString c != "" && (Atoi (splitFirst (cellAsString c))).isSome) =
    (dayCells.countP fun c =>
      match c with
      | .str text => TrimSpace text != "" && (Atoi (splitFirst (TrimSpace text))).isSome
      | .other => false) := by
  congr 1
  funext c
  cases c <;> rfl

/-- C10. On every header pair on which the builder succeeds, the number of entries is the
number of day cells that are texts, not empty after trimming (`strings.TrimSpace`), whose
trimmed text before the first `-` parses as an integer; a cell that is no text, or whose
trimmed text does not parse, can be deleted from the day row without changing the axis.
The label "7-11" gives one entry with day 7, the cell " 16 " one entry with day 16, and in
the row 3, blank, n/a, a number, 10 only 3 and 10 give entries.  An integer is what
`strconv.Atoi` accepts: an optional sign and decimal digits, within 64 bits. -/
theorem initializeCalendar_length (monthCells dayCells : List Cell) (year : Int)
    (cal : Calendar) (h : initializeCalendar [monthCells, dayCells] year = .ok cal) :
    cal.Data.length = (dayCells.countP fun c =>
      match c with
      | .str text => TrimSpace text != "" && (Atoi (splitFirst (TrimSpace text))).isSome
      | .other => false) ∧
    cal.Data.length = (dayCells.countP fun c =>
      cellAsString c != "" && (Atoi (splitFirst (cellAsString c))).isSome) ∧
    (∀ (pre post : List Cell) (c : Cell), dayCells = pre ++ c :: post →
      (∀ text : String, c = .str text → Atoi (splitFirst (TrimSpace text)) = none) →
      initializeCalendar [monthCells, pre ++ post] year = .ok cal) ∧
    (∀ (pre post : List Cell) (c : Cell), dayCells = pre ++ c :: post →
      Atoi (splitFirst (cellAsString c)) = none →
      initializeCalendar [monthCells, pre ++ post] year = .ok cal) ∧
    (∀ text : String, ∃ pre post : List Char,
      (∀ c ∈ pre, isSpace c = true) ∧ (∀ c ∈ post, isSpace c = true) ∧
      text.data = pre ++ (TrimSpace text).data ++ post ∧
      (∀ c, (TrimSpace text).data.head? = some c → isSpace c = false) ∧
      (∀ c, (TrimSpace text).data.getLast? = some c → isSpace c = false)) ∧
    initializeCalendar [[.str "March"], [.str "7-11"]] year = .ok ⟨"", [⟨3, 7, year, ""⟩]⟩ ∧
    initializeCalendar [[.str "March"], [.str " 16 "]] year = .ok ⟨"", [⟨3, 16, year, ""⟩]⟩ ∧
    initializeCalendar [[.str "May"], [.str "3", .str "  ", .str "n/a", .other, .str "10"]]
        year = .ok ⟨"", [⟨5, 3, year, ""⟩, ⟨5, 10, year, ""⟩]⟩ ∧
    (Atoi "16" = some 16 ∧ Atoi "007" = some 7 ∧ Atoi "+5" = some 5 ∧ Atoi "-5" = some (-5) ∧
      Atoi "" = none ∧ Atoi "+" = none ∧ Atoi "12a" = none ∧ Atoi "1 2" = none ∧
      Atoi "1_0" = none ∧ Atoi "1.5" = none ∧ Atoi "٣" = none ∧
      Atoi "9223372036854775807" = some 9223372036854775807 ∧
      Atoi "9223372036854775808" = none ∧
      splitFirst "7-11" = "7" ∧ splitFirst "-5" = "" ∧ splitFirst "16" = "16") := by
  obtain ⟨_, hlen, _⟩ := initializeCalendar_entries monthCells dayCells year cal h
  have hdel : ∀ (pre post : List Cell) (c : Cell), dayCells = pre ++ c :: post →
      Atoi (splitFirst (cellAsString c)) = none →
      initializeCalendar [monthCells, pre ++ post] year = .ok cal := by
    intro pre post c hsplit hc
    rw [← initializeCalendar_delete monthCells pre post c year hc, ← hsplit]
    exact h
  refine ⟨by rw [hlen, parsedDays_length, countP_day_cells], by rw [hlen, parsedDays_length],
    ?_, hdel, TrimSpace_spec, rfl, rfl, rfl, by decide⟩
  intro pre post c hsplit hc
  apply hdel pre post c hsplit
  cases c with
  | str text => exact hc text rfl
  | other => rfl

/-- Witness for C10: the day row `3, n/a, 10` and the same row without `n/a`. -/
theorem initializeCalendar_length_witness :
    initializeCalendar [[.str "May"], [.str "3", .str "10"]] 2024 =
      .ok ⟨"", [⟨5, 3, 2024, ""⟩, ⟨5, 10, 2024, ""⟩]⟩ :=
  (initializeCalendar_length [.str "May"] [.str "3", .str "n/a", .str "10"] 2024
    ⟨"", [⟨5, 3, 2024, ""⟩, ⟨5, 10, 2024, ""⟩]⟩ (by decide)).2.2.1
    [.str "3"] [.str "10"] (.str "n/a") rfl
    (fun text ht => by
      have h1 : text = "n/a" := by
        injection ht with h2
        exact h2.symm
      rw [h1]
      decide)

/-! ## Date-axis builder: month index past the month list -/

/-- When the month index leaves the month list at some parsed day, the loop of
`initializeCalendar` ends in an index-out-of-range panic. -/
theorem initLoop_overflow (months : List Int) :
    ∀ (dates : List String) (year : Int) (mi : Nat) (prev : Int) (data : List Week),
      (∃ k, k < (dates.filterMap dayOf).length ∧
        months.length ≤ mi + monthAdvances (prev :: dates.filterMap dayOf) (k + 1)) →
      initLoop months dates year mi prev data = .panic := by
  intro dates
  induction dates with
  | nil =>
    intro year mi prev data h
    obtain ⟨k, hk, _⟩ := h
    simp at hk
  | cons date rest ih =>
    intro year mi prev data h
    cases hd : dayOf date with
    | none =>
      rw [initLoop_cons_none months date rest year mi prev data hd]
      rw [List.filterMap_cons_none hd] at h
      exact ih year mi prev data h
    | some day =>
      rw [initLoop_cons_some months date rest year mi prev data day hd]
      rw [List.filterMap_cons_some hd] at h
      cases hm : months[mi + if day < prev then 1 else 0]? with
      | none => rfl
      | some m =>
        simp only
        apply ih
        obtain ⟨k, hk, hover⟩ := h
        rw [monthAdvances_cons] at hover
        simp only [List.getD_cons_zero] at hover
        have hlt : mi + (if day < prev then 1 else 0) < months.length :=
          (List.getElem?_eq_some.1 hm).1
        cases k with
        | zero =>
          rw [monthAdvances_zero] at hover
          omega
        | succ k =>
          refine ⟨k, by simpa using hk, ?_⟩
          omega

/-- When the number of strict day decreases up to some parsed day reaches the number of
parsed months, `initializeCalendar` panics: it returns neither an error nor a calendar. -/
theorem initializeCalendar_overflow (monthCells dayCells : List Cell) (year : Int)
    (h : ∃ k, k < (parsedDays dayCells).length ∧
      (parseMonths monthCells).length ≤ monthAdvances (parsedDays dayCells) k) :
    initializeCalendar [monthCells, dayCells] year = .panic := by
  have hneg := parsedDays_head_nonneg dayCells
  have hloop : initLoop (parseMonths monthCells) (nonEmptyCells dayCells) year 0 (-1) [] =
      .panic := by
    apply initLoop_overflow
    obtain ⟨k, hk, hover⟩ := h
    refine ⟨k, hk, ?_⟩
    rw [monthAdvances_cons]
    unfold parsedDays at hneg hover
    simp only [hneg, if_false]
    omega
  unfold initializeCalendar
  simp only [hloop]

/-- C11 (the code departs from the claim). With one month token and a day row whose second
day is smaller than the first, and with a parseable day but no month token at all, the
month index leaves the parsed month list; `initializeCalendar` then panics with an index
out of range instead of returning a structural error value. -/
theorem initializeCalendar_panics_on_month_overflow (year : Int) :
    initializeCalendar [[.str "January"], [.str "28", .str "1"]] year = .panic ∧
    initializeCalendar [[], [.str "28"]] year = .panic ∧
    initializeCalendar [[.str "n/a"], [.str "28"]] year = .panic :=
  ⟨rfl, rfl, rfl⟩

/-! ## Calendar assembler -/

theorem mem_mapSet (m : List (String × Calendar)) (key : String) (v : Calendar) (k : String)
    (c : Calendar) :
    (k, c) ∈ mapSet m key v ↔ ((k, c) ∈ m ∧ k ≠ key) ∨ (k = key ∧ c = v) := by
  simp [mapSet]

theorem keys_mapSet (m : List (String × Calendar)) (key : String) (v : Calendar) (k : String) :
    k ∈ (mapSet m key v).map Prod.fst ↔ k ∈ m.map Prod.fst ∨ k = key := by
  simp only [List.mem_map, Prod.exists, exists_and_right, exists_eq_right]
  constructor
  · rintro ⟨c, hc⟩
    rcases (mem_mapSet m key v k c).1 hc with ⟨h, _⟩ | ⟨h, _⟩
    · exact Or.inl ⟨c, h⟩
    · exact Or.inr h
  · rintro (⟨c, hc⟩ | h)
    · by_cases hk : k = key
      · exact ⟨v, (mem_mapSet m key v k v).2 (Or.inr ⟨hk, rfl⟩)⟩
      · exact ⟨c, (mem_mapSet m key v k c).2 (Or.inl ⟨hc, hk⟩)⟩
    · exact ⟨v, (mem_mapSet m key v k v).2 (Or.inr ⟨h, rfl⟩)⟩

theorem nodup_mapSet (m : List (String × Calendar)) (key : String) (v : Calendar)
    (h : (m.map Prod.fst).Nodup) : ((mapSet m key v).map Prod.fst).Nodup := by
  unfold mapSet
  rw [List.map_append, List.nodup_append]
  refine ⟨(List.Nodup.sublist ((List.filter_sublist m).map Prod.fst) h), by simp, ?_⟩
  intro a ha hb
  simp only [List.map_cons, List.map_nil, List.mem_singleton] at hb
  subst hb
  simp only [List.mem_map, List.mem_filter] at ha
  obtain ⟨p, ⟨_, hp⟩, rfl⟩ := ha
  simp at hp

/-- One iteration of the loop of `getStockingData`. -/
theorem stockLoop_cons (s : Int) (cal : Calendar) (wn : List String) (row : List Cell)
    (rest : List (List Cell)) (result : List (String × Calendar)) (all : List String) :
    stockLoop s cal wn (row :: rest) result all =
      match rowEffect s cal wn row with
      | .ok none => stockLoop s cal wn rest result all
      | .ok (some (name, none)) => stockLoop s cal wn rest result (all ++ [name])
      | .ok (some (name, some c)) =>
        stockLoop s cal wn rest (mapSet result name c) (all ++ [name])
      | .error e => .error e
      | .panic => .panic := by
  rw [stockLoop]
  unfold rowEffect rowName
  by_cases hlen : row.length < 2
  · simp only [hlen, if_true]
  · simp only [hlen, if_false]
    cases hc : row[0]? with
    | none =>
      have : row.length ≤ 0 := by
        rcases Nat.lt_or_ge 0 row.length with h | h
        · rw [List.getElem?_eq_getElem h] at hc; cases hc
        · exact h
      omega
    | some cell =>
      simp only
      by_cases hn : cellAsString cell = ""
      · simp only [hn, if_true]
      · simp only [hn, if_false]
        by_cases hsel : wn.length > 0 ∧ ¬ wn.contains (ToLower (cellAsString cell))
        · rw [if_pos hsel, if_pos hsel]
        · rw [if_neg hsel, if_neg hsel]
          cases getDataFromRow s (row.drop 1) cal <;> rfl

theorem rowEffect_ok_none (s : Int) (cal : Calendar) (wn : List String) (row : List Cell)
    (h : rowEffect s cal wn row = .ok none) : rowName row = none := by
  unfold rowEffect at h
  cases hn : rowName row with
  | none => rfl
  | some name =>
    rw [hn] at h
    simp only at h
    split_ifs at h
    · simp at h
    · cases hg : getDataFromRow s (row.drop 1) cal <;> rw [hg] at h <;> simp at h

theorem rowEffect_ok_some (s : Int) (cal : Calendar) (wn : List String) (row : List Cell)
    (name : String) (x : Option Calendar) (h : rowEffect s cal wn row = .ok (some (name, x))) :
    rowName row = some name := by
  unfold rowEffect at h
  cases hn : rowName row with
  | none => rw [hn] at h; simp at h
  | some name2 =>
    rw [hn] at h
    simp only at h
    split_ifs at h
    · simp only [Result.ok.injEq, Option.some.injEq, Prod.mk.injEq] at h
      rw [h.1]
    · cases hg : getDataFromRow s (row.drop 1) cal <;> rw [hg] at h <;>
        simp only [Result.ok.injEq, Option.some.injEq, Prod.mk.injEq, reduceCtorEq] at h <;>
        rw [h.1]

theorem rowEffect_ne_error (s : Int) (cal : Calendar) (wn : List String) (row : List Cell)
    (e : StockerError) : rowEffect s cal wn row ≠ .error e := by
  unfold rowEffect
  cases rowName row with
  | none => simp
  | some name =>
    simp only
    split_ifs
    · simp
    · cases getDataFromRow s (row.drop 1) cal <;> simp

/-- A row that records its name and a calendar: it has a name, passes the filter, and the
calendar is the outcome of `getDataFromRow` with the name attached. -/
theorem rowEffect_assign_iff (s : Int) (cal : Calendar) (wn : List String) (row : List Cell)
    (k : String) (c : Calendar) :
    rowEffect s cal wn row = .ok (some (k, some c)) ↔
      rowName row = some k ∧ (wn = [] ∨ ToLower k ∈ wn) ∧
        ∃ d, getDataFromRow s (row.drop 1) cal = .ok d ∧ c = { d with WaterName := k } := by
  unfold rowEffect
  cases hn : rowName row with
  | none => simp
  | some name =>
    simp only
    by_cases hsel : wn.length > 0 ∧ ¬ wn.contains (ToLower name)
    · rw [if_pos hsel]
      simp only [Result.ok.injEq, Option.some.injEq, Prod.mk.injEq, reduceCtorEq, and_false,
        false_iff, not_and, not_exists]
      intro hk hor
      rw [← hk] at hor
      obtain ⟨h1, h2⟩ := hsel
      rcases hor with h | h
      · rw [h] at h1; simp at h1
      · exact absurd (by simpa using h) h2
    · rw [if_neg hsel]
      have hsel2 : wn = [] ∨ ToLower name ∈ wn := by
        by_cases hw : wn = []
        · exact Or.inl hw
        · right
          by_contra hc
          apply hsel
          refine ⟨List.length_pos.2 hw, by simpa using hc⟩
      cases hg : getDataFromRow s (row.drop 1) cal with
      | ok d =>
        simp only [Result.ok.injEq, Option.some.injEq, Prod.mk.injEq]
        constructor
        · rintro ⟨rfl, rfl⟩
          exact ⟨rfl, hsel2, d, rfl, rfl⟩
        · rintro ⟨hk, _, d2, hd2, rfl⟩
          subst hk
          subst hd2
          exact ⟨rfl, rfl⟩
      | error e => simp
      | panic => simp

/-- The all-names list `getStockingData` returns: the names of the rows, in row order. -/
theorem stockLoop_names (s : Int) (cal : Calendar) (wn : List String) :
    ∀ (rows : List (List Cell)) (result : List (String × Calendar)) (all : List String)
      (r : List (String × Calendar)) (a : List String),
      stockLoop s cal wn rows result all = .ok (r, a) → a = all ++ rows.filterMap rowName := by
  intro rows
  induction rows with
  | nil =>
    intro result all r a h
    rw [stockLoop] at h
    simp only [Result.ok.injEq, Prod.mk.injEq] at h
    simp [h.2]
  | cons row rest ih =>
    intro result all r a h
    rw [stockLoop_cons] at h
    cases hre : rowEffect s cal wn row with
    | error e => rw [hre] at h; cases h
    | panic => rw [hre] at h; cases h
    | ok o =>
      rw [hre] at h
      match o, hre, h with
      | none, hre, h =>
        rw [List.filterMap_cons_none (rowEffect_ok_none s cal wn row hre)]
        exact ih _ _ _ _ h
      | some (name, none), hre, h =>
        rw [List.filterMap_cons_some (rowEffect_ok_some s cal wn row name none hre)]
        rw [ih _ _ _ _ h, List.append_assoc]
        rfl
      | some (name, some c), hre, h =>
        rw [List.filterMap_cons_some (rowEffect_ok_some s cal wn row name (some c) hre)]
        rw [ih _ _ _ _ h, List.append_assoc]
        rfl

/-- When no row panics, `getStockingData` returns. -/
theorem stockLoop_total (s : Int) (cal : Calendar) (wn : List String) :
    ∀ (rows : List (List Cell)) (result : List (String × Calendar)) (all : List String),
      (∀ row ∈ rows, rowEffect s cal wn row ≠ .panic) →
      ∃ r a, stockLoop s cal wn rows result all = .ok (r, a) := by
  intro rows
  induction rows with
  | nil => intro result all _; exact ⟨result, all, rfl⟩
  | cons row rest ih =>
    intro result all hnp
    have hrest : ∀ row ∈ rest, rowEffect s cal wn row ≠ .panic :=
      fun r hr => hnp r (List.mem_cons_of_mem _ hr)
    rw [stockLoop_cons]
    cases hre : rowEffect s cal wn row with
    | error e => exact absurd hre (rowEffect_ne_error s cal wn row e)
    | panic => exact absurd hre (hnp row (List.mem_cons_self _ _))
    | ok o =>
      match o with
      | none => exact ih _ _ hrest
      | some (name, none) => exact ih _ _ hrest
      | some (name, some c) => exact ih _ _ hrest

/-- Every entry of the returned map was there at the start or was assigned by a row. -/
theorem stockLoop_mem (s : Int) (cal : Calendar) (wn : List String) :
    ∀ (rows : List (List Cell)) (result : List (String × Calendar)) (all : List String)
      (r : List (String × Calendar)) (a : List String),
      stockLoop s cal wn rows result all = .ok (r, a) →
      ∀ (k : String) (c : Calendar), (k, c) ∈ r →
        (k, c) ∈ result ∨ ∃ row ∈ rows, rowEffect s cal wn row = .ok (some (k, some c)) := by
  intro rows
  induction rows with
  | nil =>
    intro result all r a h k c hk
    rw [stockLoop] at h
    simp only [Result.ok.injEq, Prod.mk.injEq] at h
    left
    rw [h.1]
    exact hk
  | cons row rest ih =>
    intro result all r a h k c hk
    rw [stockLoop_cons] at h
    cases hre : rowEffect s cal wn row with
    | error e => rw [hre] at h; cases h
    | panic => rw [hre] at h; cases h
    | ok o =>
      rw [hre] at h
      match o, hre, h with
      | none, hre, h =>
        rcases ih _ _ _ _ h k c hk with h1 | ⟨row2, hr2, h2⟩
        · exact Or.inl h1
        · exact Or.inr ⟨row2, List.mem_cons_of_mem _ hr2, h2⟩
      | some (name, none), hre, h =>
        rcases ih _ _ _ _ h k c hk with h1 | ⟨row2, hr2, h2⟩
        · exact Or.inl h1
        · exact Or.inr ⟨row2, List.mem_cons_of_mem _ hr2, h2⟩
      | some (name, some c2), hre, h =>
        rcases ih _ _ _ _ h k c hk with h1 | ⟨row2, hr2, h2⟩
        · rcases (mem_mapSet result name c2 k c).1 h1 with ⟨h3, _⟩ | ⟨h3, h4⟩
          · exact Or.inl h3
          · subst h3
            subst h4
            exact Or.inr ⟨row, List.mem_cons_self _ _, hre⟩
        · exact Or.inr ⟨row2, List.mem_cons_of_mem _ hr2, h2⟩

/-- A key there at the start, or assigned by a row, is a key of the returned map. -/
theorem stockLoop_keys (s : Int) (cal : Calendar) (wn : List String) :
    ∀ (rows : List (List Cell)) (result : List (String × Calendar)) (all : List String)
      (r : List (String × Calendar)) (a : List String),
      stockLoop s cal wn rows result all = .ok (r, a) →
      ∀ (k : String), (k ∈ result.map Prod.fst ∨
          ∃ row ∈ rows, ∃ c, rowEffect s cal wn row = .ok (some (k, some c))) →
        k ∈ r.map Prod.fst := by
  intro rows
  induction rows with
  | nil =>
    intro result all r a h k hk
    rw [stockLoop] at h
    simp only [Result.ok.injEq, Prod.mk.injEq] at h
    rcases hk with hk | ⟨row, hr, _⟩
    · rw [← h.1]; exact hk
    · cases hr
  | cons row rest ih =>
    intro result all r a h k hk
    rw [stockLoop_cons] at h
    have hsplit : ∀ (res2 : List (String × Calendar)),
        (k ∈ result.map Prod.fst → k ∈ res2.map Prod.fst) →
        ((∃ c, rowEffect s cal wn row = .ok (some (k, some c))) → k ∈ res2.map Prod.fst) →
        (k ∈ res2.map Prod.fst ∨
          ∃ row ∈ rest, ∃ c, rowEffect s cal wn row = .ok (some (k, some c))) := by
      intro res2 h1 h2
      rcases hk with hk | ⟨row2, hr2, c, hc⟩
      · exact Or.inl (h1 hk)
      · rcases List.mem_cons.1 hr2 with rfl | hr2
        · exact Or.inl (h2 ⟨c, hc⟩)
        · exact Or.inr ⟨row2, hr2, c, hc⟩
    cases hre : rowEffect s cal wn row with
    | error e => rw [hre] at h; cases h
    | panic => rw [hre] at h; cases h
    | ok o =>
      rw [hre] at h
      match o, hre, h with
      | none, hre, h =>
        exact ih _ _ _ _ h k (hsplit result id (by rintro ⟨c, hc⟩; rw [hre] at hc; cases hc))
      | some (name, none), hre, h =>
        exact ih _ _ _ _ h k (hsplit result id (by rintro ⟨c, hc⟩; rw [hre] at hc; cases hc))
      | some (name, some c2), hre, h =>
        refine ih _ _ _ _ h k (hsplit _ ?_ ?_)
        · intro hk2
          exact (keys_mapSet result name c2 k).2 (Or.inl hk2)
        · rintro ⟨c, hc⟩
          rw [hre] at hc
          simp only [Result.ok.injEq, Option.some.injEq, Prod.mk.injEq] at hc
          exact (keys_mapSet result name c2 k).2 (Or.inr hc.1.symm)

/-- The keys of the returned map stay pairwise distinct. -/
theorem stockLoop_nodup (s : Int) (cal : Calendar) (wn : List String) :
    ∀ (rows : List (List Cell)) (result : List (String × Calendar)) (all : List String)
      (r : List (String × Calendar)) (a : List String),
      stockLoop s cal wn rows result all = .ok (r, a) →
      (result.map Prod.fst).Nodup → (r.map Prod.fst).Nodup := by
  intro rows
  induction rows with
  | nil =>
    intro result all r a h hn
    rw [stockLoop] at h
    simp only [Result.ok.injEq, Prod.mk.injEq] at h
    rw [← h.1]; exact hn
  | cons row rest ih =>
    intro result all r a h hn
    rw [stockLoop_cons] at h
    cases hre : rowEffect s cal wn row with
    | error e => rw [hre] at h; cases h
    | panic => rw [hre] at h; cases h
    | ok o =>
      rw [hre] at h
      match o, hre, h with
      | none, _, h => exact ih _ _ _ _ h hn
      | some (name, none), _, h => exact ih _ _ _ _ h hn
      | some (name, some c2), _, h => exact ih _ _ _ _ h (nodup_mapSet result name c2 hn)

/-- The returned map does not depend on the names recorded so far. -/
theorem stockLoop_map_names_irrelevant (s : Int) (cal : Calendar) (wn : List String) :
    ∀ (rows : List (List Cell)) (result : List (String × Calendar)) (all all2 : List String),
      (stockLoop s cal wn rows result all).map Prod.fst =
        (stockLoop s cal wn rows result all2).map Prod.fst := by
  intro rows
  induction rows with
  | nil => intro result all all2; rfl
  | cons row rest ih =>
    intro result all all2
    rw [stockLoop_cons, stockLoop_cons]
    cases hre : rowEffect s cal wn row with
    | error e => rfl
    | panic => rfl
    | ok o =>
      match o with
      | none => exact ih _ _ _
      | some (name, none) => exact ih _ _ _
      | some (name, some c) => exact ih _ _ _

/-- A row that assigns no calendar can be removed without changing the returned map. -/
theorem stockLoop_remove (s : Int) (cal : Calendar) (wn : List String) (row : List Cell)
    (post : List (List Cell))
    (hrow : rowEffect s cal wn row = .ok none ∨
      ∃ name, rowEffect s cal wn row = .ok (some (name, none))) :
    ∀ (pre : List (List Cell)) (result : List (String × Calendar)) (all : List String),
      (stockLoop s cal wn (pre ++ row :: post) result all).map Prod.fst =
        (stockLoop s cal wn (pre ++ post) result all).map Prod.fst := by
  intro pre
  induction pre with
  | nil =>
    intro result all
    rw [List.nil_append, List.nil_append, stockLoop_cons]
    rcases hrow with h | ⟨name, h⟩
    · rw [h]
    · rw [h]
      exact stockLoop_map_names_irrelevant s cal wn post result _ _
  | cons x pre ih =>
    intro result all
    rw [List.cons_append, List.cons_append, stockLoop_cons, stockLoop_cons]
    cases hre : rowEffect s cal wn x with
    | error e => rfl
    | panic => rfl
    | ok o =>
      match o with
      | none => exact ih _ _
      | some (name, none) => exact ih _ _
      | some (name, some c) => exact ih _ _

/-- With the skip index unset or within the axis, `getDataFromRow` never panics. -/
theorem getDataFromRow_no_panic (s : Int) (row : List Cell) (cal : Calendar)
    (hs : s = -1 ∨ (0 ≤ s ∧ s ≤ cal.Data.length)) :
    getDataFromRow s row cal ≠ .panic := by
  by_cases hlong : (cal.Data.length : Int) < row.length - (if s ≥ 0 then 1 else 0)
  · rw [getDataFromRow_too_long s row cal hlong]
    simp
  · rcases hs with hs | ⟨hs0, hsn⟩
    · subst hs
      have hlen : row.length ≤ cal.Data.length := by
        simp only [ge_iff_le, Left.nonneg_neg_iff, Int.reduceLE, if_false] at hlong
        omega
      rw [getDataFromRow_noskip (-1) row cal (by omega) hlen]
      simp
    · obtain ⟨t, rfl⟩ := Int.eq_ofNat_of_zero_le hs0
      have hlen : row.length ≤ cal.Data.length + 1 := by
        simp only [ge_iff_le, hs0, if_true] at hlong
        omega
      rw [getDataFromRow_skip t row cal (by omega) hlen]
      simp

theorem rowEffect_no_panic (s : Int) (cal : Calendar) (wn : List String) (row : List Cell)
    (hs : s = -1 ∨ (0 ≤ s ∧ s ≤ cal.Data.length)) :
    rowEffect s cal wn row ≠ .panic := by
  unfold rowEffect
  cases rowName row with
  | none => simp
  | some name =>
    simp only
    split_ifs
    · simp
    · have := getDataFromRow_no_panic s (row.drop 1) cal hs
      cases hg : getDataFromRow s (row.drop 1) cal with
      | ok d => simp
      | error e => simp
      | panic => exact absurd hg this

/-- A row whose normalization returns an error assigns no calendar. -/
theorem rowEffect_of_error (s : Int) (cal : Calendar) (wn : List String) (row : List Cell)
    (e : StockerError) (h : getDataFromRow s (row.drop 1) cal = .error e) :
    rowEffect s cal wn row = .ok none ∨
      ∃ name, rowEffect s cal wn row = .ok (some (name, none)) := by
  unfold rowEffect
  cases rowName row with
  | none => left; rfl
  | some name =>
    right
    refine ⟨name, ?_⟩
    simp only [h]
    split_ifs <;> rfl

/-- C12 (amended statement). Whenever `getStockingData` returns, the all-names list is, in
row order, the trimmed first-cell text of every row that has at least two cells and a
non-empty first-cell text, whatever the filter and whether or not the normalization of the
row fails; a row of fewer than two cells or with an empty name adds nothing.  With the
skip index unset or within the axis it does return.  In the example the rows "Lake A",
" Pond B " (filtered out) and "Creek C" (too long) give the names Lake A, Pond B, Creek C;
the name-only row, the row that starts with a number and the row with a blank name give
none. -/
theorem getStockingData_all_names (s : Int) (cal : Calendar) (wn : List String)
    (values : List (List Cell)) :
    (∀ (result : List (String × Calendar)) (names : List String),
      getStockingData s cal wn values = .ok (result, names) →
      names = values.filterMap rowName) ∧
    ((s = -1 ∨ (0 ≤ s ∧ s ≤ cal.Data.length)) →
      ∃ result, getStockingData s cal wn values = .ok (result, values.filterMap rowName)) ∧
    (∀ row : List Cell, row.length < 2 → rowName row = none) ∧
    (∀ (cell second : Cell) (rest : List Cell),
      rowName (cell :: second :: rest) =
        if cellAsString cell = "" then none else some (cellAsString cell)) ∧
    (∀ (text : String) (second : Cell) (rest : List Cell),
      rowName (.str text :: second :: rest) =
        if TrimSpace text = "" then none else some (TrimSpace text)) ∧
    (∀ (second : Cell) (rest : List Cell), rowName (.other :: second :: rest) = none) ∧
    getStockingData (-1) ⟨"", [⟨1, 1, 2024, ""⟩]⟩ ["lake a"]
        [[.str "Lake A", .str "x"], [.str " Pond B ", .str "c"], [.str "Only Name"],
          [.str "Creek C", .str "x", .str "x"], [.other, .str "x"], [.str "  ", .str "x"]] =
      .ok ([("Lake A", ⟨"Lake A", [⟨1, 1, 2024, Trout⟩]⟩)], ["Lake A", "Pond B", "Creek C"]) := by
  refine ⟨?_, ?_, ?_, ?_, ?_, ?_, by decide⟩
  · intro result names h
    have := stockLoop_names s cal wn values [] [] result names h
    simpa using this
  · intro hs
    obtain ⟨r, a, h⟩ := stockLoop_total s cal wn values [] []
      (fun row _ => rowEffect_no_panic s cal wn row hs)
    have ha := stockLoop_names s cal wn values [] [] r a h
    simp only [List.nil_append] at ha
    subst ha
    exact ⟨r, h⟩
  · intro row hrow
    simp [rowName, hrow]
  · intro cell second rest
    simp [rowName]
  · intro text second rest
    simp [rowName, cellAsString]
  · intro second rest
    simp [rowName, cellAsString]

/-- Witness for C12: three rows, the second filtered out, the third too long. -/
theorem getStockingData_all_names_witness :
    ∃ result, getStockingData (-1) ⟨"", [⟨1, 1, 2024, ""⟩]⟩ ["lake a"]
        [[.str "Lake A", .str "x"], [.str " Pond B ", .str "c"],
          [.str "Creek C", .str "x", .str "x"], [.other, .str "x"]] =
      .ok (result, [[.str "Lake A", .str "x"], [.str " Pond B ", .str "c"],
          [.str "Creek C", .str "x", .str "x"], [.other, .str "x"]].filterMap rowName) :=
  (getStockingData_all_names (-1) ⟨"", [⟨1, 1, 2024, ""⟩]⟩ ["lake a"]
    [[.str "Lake A", .str "x"], [.str " Pond B ", .str "c"],
      [.str "Creek C", .str "x", .str "x"], [.other, .str "x"]]).2.1 (Or.inl rfl)

/-- C12 as stated fails: a row that consists of the name cell "Lake A" alone has a
non-empty first-cell text, yet the all-names list returned for it is empty. -/
theorem getStockingData_omits_name_only_row :
    cellAsString (.str "Lake A") = "Lake A" ∧
    getStockingData (-1) ⟨"", [⟨1, 1, 2024, ""⟩]⟩ [] [[.str "Lake A"]] = .ok ([], []) := by
  decide

/-- C13. Whenever `getDataForWaters` returns: the keys of the map are pairwise distinct,
every key occurs in the all-names list and the calendar stored under it carries the key as
WaterName; with a non-empty requested list every key has the lower-case form of a requested
name; and every row with a name, whose lower-cased name equals the lower-cased form of a
requested name or with no name requested at all, and whose normalization succeeds, has its
name among the keys.  With the skip index unset or within the built axis it does return.
The lower-casing is that of `strings.ToLower` on every cased rune: the requests
"PEÑA BLANCA LAKE" and "école POND" select the rows "Peña Blanca Lake" and "ÉCOLE pond". -/
theorem getDataForWaters_filtering (s : Int) (dateValues values : List (List Cell))
    (year : Int) (waterNames : List String) :
    (∀ (result : List (String × Calendar)) (names : List String),
      getDataForWaters s dateValues values year waterNames = .ok (result, names) →
      (result.map Prod.fst).Nodup ∧
      (∀ (k : String) (c : Calendar), (k, c) ∈ result → k ∈ names ∧ c.WaterName = k) ∧
      (waterNames ≠ [] → ∀ (k : String) (c : Calendar), (k, c) ∈ result →
        ∃ w ∈ waterNames, ToLower k = ToLower w) ∧
      (∀ axis, initializeCalendar dateValues year = .ok axis →
        ∀ row ∈ values, ∀ (k : String), rowName row = some k →
          (waterNames = [] ∨ ∃ w ∈ waterNames, ToLower k = ToLower w) →
          (∃ d, getDataFromRow s (row.drop 1) axis = .ok d) → k ∈ result.map Prod.fst)) ∧
    (∀ axis, initializeCalendar dateValues year = .ok axis →
      (s = -1 ∨ (0 ≤ s ∧ s ≤ axis.Data.length)) →
      ∃ result names, getDataForWaters s dateValues values year waterNames =
        .ok (result, names)) ∧
    getDataForWaters (-1) [[.str "January"], [.str "1"]]
        [[.str "Peña Blanca Lake", .str "x"], [.str "Lake A", .str "c"],
          [.str "ÉCOLE pond", .str "c"]] 2024 ["PEÑA BLANCA LAKE", "école POND"] =
      .ok ([("Peña Blanca Lake", ⟨"Peña Blanca Lake", [⟨1, 1, 2024, Trout⟩]⟩),
          ("ÉCOLE pond", ⟨"ÉCOLE pond", [⟨1, 1, 2024, Catfish⟩]⟩)],
        ["Peña Blanca Lake", "Lake A", "ÉCOLE pond"]) := by
  refine ⟨?_, ?_, by decide⟩
  · intro result names h
    unfold getDataForWaters at h
    simp only at h
    cases hax : initializeCalendar dateValues year with
    | error e => rw [hax] at h; cases h
    | panic => rw [hax] at h; cases h
    | ok axis =>
      rw [hax] at h
      simp only at h
      cases hst : getStockingData s axis (waterNames.map ToLower) values with
      | error e => rw [hst] at h; cases h
      | panic => rw [hst] at h; cases h
      | ok pr =>
        rw [hst] at h
        obtain ⟨r, a⟩ := pr
        simp only [Result.ok.injEq, Prod.mk.injEq] at h
        obtain ⟨rfl, rfl⟩ := h
        unfold getStockingData at hst
        have hnames := stockLoop_names s axis _ values [] [] r a hst
        simp only [List.nil_append] at hnames
        refine ⟨stockLoop_nodup s axis _ values [] [] r a hst (by simp), ?_, ?_, ?_⟩
        · intro k c hk
          rcases stockLoop_mem s axis _ values [] [] r a hst k c hk with h1 | ⟨row, hr, h2⟩
          · cases h1
          · obtain ⟨hn, _, d, _, hc⟩ := (rowEffect_assign_iff s axis _ row k c).1 h2
            refine ⟨?_, by rw [hc]⟩
            rw [hnames]
            exact List.mem_filterMap.2 ⟨row, hr, hn⟩
        · intro hne k c hk
          rcases stockLoop_mem s axis _ values [] [] r a hst k c hk with h1 | ⟨row, hr, h2⟩
          · cases h1
          · obtain ⟨_, hsel, _⟩ := (rowEffect_assign_iff s axis _ row k c).1 h2
            rcases hsel with h0 | hmem
            · exact absurd (List.map_eq_nil_iff.1 h0) hne
            · obtain ⟨w, hw, hwk⟩ := List.mem_map.1 hmem
              exact ⟨w, hw, hwk.symm⟩
        · intro axis2 hax2 row hr k hn hsel hd
          simp only [Result.ok.injEq] at hax2
          subst hax2
          obtain ⟨d, hd⟩ := hd
          apply stockLoop_keys s axis _ values [] [] r a hst k
          right
          refine ⟨row, hr, { d with WaterName := k }, ?_⟩
          refine (rowEffect_assign_iff s axis _ row k _).2 ⟨hn, ?_, d, hd, rfl⟩
          rcases hsel with h0 | ⟨w, hw, hwk⟩
          · left; rw [h0]; rfl
          · right
            exact List.mem_map.2 ⟨w, hw, hwk.symm⟩
  · intro axis hax hs
    obtain ⟨r, a, h⟩ := stockLoop_total s axis (waterNames.map ToLower) values [] []
      (fun row _ => rowEffect_no_panic s axis _ row hs)
    refine ⟨r, a, ?_⟩
    unfold getDataForWaters getStockingData
    simp only [hax, h]

/-- Witness for C13: the request "POND B" selects the row named "Pond b". -/
theorem getDataForWaters_filtering_witness :
    ∃ w ∈ ["POND B"], ToLower "Pond b" = ToLower w :=
  ((getDataForWaters_filtering (-1) [[.str "January"], [.str "1"]]
    [[.str "Lake A", .str "x"], [.str "Pond b", .str "c"]] 2024 ["POND B"]).1
    [("Pond b", ⟨"Pond b", [⟨1, 1, 2024, "Catfish"⟩]⟩)] ["Lake A", "Pond b"]
    (by decide)).2.2.1 (by decide) "Pond b" ⟨"Pond b", [⟨1, 1, 2024, "Catfish"⟩]⟩ (by decide)

/-- C14 (amended statement). For a row whose normalization returns an error:
`getStockingData` ends with the same map as on the grid without that row; with the skip
index unset or within the axis it returns without error; in the returned map the name of
the failing row is a key only if another selected row of that name succeeds, every other
selected row that succeeds has its name among the keys, and every key holds the calendar
the Row Normalizer produced for a selected row of that name, the name attached.  A row is
selected when no name is requested or its name, lower-cased as `strings.ToLower` does on
every cased rune, is among the lower-cased requested names: with "peña blanca lake"
requested, the row "PEÑA BLANCA LAKE" is kept, "Lake B" is not, and the too long row
"Peña Blanca Lake" is dropped. -/
theorem getStockingData_row_failure (s : Int) (cal : Calendar) (wn : List String)
    (pre post : List (List Cell)) (row : List Cell) (e : StockerError)
    (hfail : getDataFromRow s (row.drop 1) cal = .error e) :
    (getStockingData s cal wn (pre ++ row :: post)).map Prod.fst =
      (getStockingData s cal wn (pre ++ post)).map Prod.fst ∧
    ((s = -1 ∨ (0 ≤ s ∧ s ≤ cal.Data.length)) →
      ∃ result names, getStockingData s cal wn (pre ++ row :: post) = .ok (result, names)) ∧
    (∀ (result : List (String × Calendar)) (names : List String),
      getStockingData s cal wn (pre ++ row :: post) = .ok (result, names) →
      (result.map Prod.fst).Nodup ∧
      (∀ (k : String) (c : Calendar), (k, c) ∈ result →
        ∃ row2 ∈ pre ++ post, rowName row2 = some k ∧ (wn = [] ∨ ToLower k ∈ wn) ∧
          ∃ d, getDataFromRow s (row2.drop 1) cal = .ok d ∧ c = { d with WaterName := k }) ∧
      (∀ row2 ∈ pre ++ post, ∀ (k : String) (d : Calendar), rowName row2 = some k →
        (wn = [] ∨ ToLower k ∈ wn) → getDataFromRow s (row2.drop 1) cal = .ok d →
        k ∈ result.map Prod.fst)) ∧
    getStockingData (-1) ⟨"", [⟨1, 1, 2024, ""⟩]⟩ ["peña blanca lake"]
        [[.str "PEÑA BLANCA LAKE", .str "x"], [.str "Lake B", .str "c"],
          [.str "Peña Blanca Lake", .str "x", .str "x"]] =
      .ok ([("PEÑA BLANCA LAKE", ⟨"PEÑA BLANCA LAKE", [⟨1, 1, 2024, Trout⟩]⟩)],
        ["PEÑA BLANCA LAKE", "Lake B", "Peña Blanca Lake"]) := by
  have hrem : (getStockingData s cal wn (pre ++ row :: post)).map Prod.fst =
      (getStockingData s cal wn (pre ++ post)).map Prod.fst :=
    stockLoop_remove s cal wn row post (rowEffect_of_error s cal wn row e hfail) pre [] []
  refine ⟨hrem, ?_, ?_, by decide⟩
  · intro hs
    exact stockLoop_total s cal wn (pre ++ row :: post) [] []
      (fun r _ => rowEffect_no_panic s cal wn r hs)
  · intro result names h
    rw [h] at hrem
    cases h2 : getStockingData s cal wn (pre ++ post) with
    | error e2 => rw [h2] at hrem; cases hrem
    | panic => rw [h2] at hrem; cases hrem
    | ok pr =>
      obtain ⟨r2, a2⟩ := pr
      rw [h2] at hrem
      simp only [Result.map, Result.ok.injEq] at hrem
      subst hrem
      unfold getStockingData at h2
      refine ⟨stockLoop_nodup s cal wn _ [] [] _ a2 h2 (by simp), ?_, ?_⟩
      · intro k c hk
        rcases stockLoop_mem s cal wn _ [] [] _ a2 h2 k c hk with h1 | ⟨row2, hr, h3⟩
        · cases h1
        · exact ⟨row2, hr, (rowEffect_assign_iff s cal wn row2 k c).1 h3⟩
      · intro row2 hr k d hn hsel hd
        apply stockLoop_keys s cal wn _ [] [] _ a2 h2 k
        right
        exact ⟨row2, hr, { d with WaterName := k },
          (rowEffect_assign_iff s cal wn row2 k _).2 ⟨hn, hsel, d, hd, rfl⟩⟩

/-- Witness for C14: the too long row of water B between two rows that succeed. -/
theorem getStockingData_row_failure_witness :
    (getStockingData (-1) ⟨"", [⟨1, 1, 2024, ""⟩]⟩ []
        ([[.str "A", .str "x"]] ++ [.str "B", .str "x", .str "x"] :: [[.str "C", .str "c"]])).map
        Prod.fst =
      (getStockingData (-1) ⟨"", [⟨1, 1, 2024, ""⟩]⟩ []
        ([[.str "A", .str "x"]] ++ [[.str "C", .str "c"]])).map Prod.fst :=
  (getStockingData_row_failure (-1) ⟨"", [⟨1, 1, 2024, ""⟩]⟩ [] [[.str "A", .str "x"]]
    [[.str "C", .str "c"]] [.str "B", .str "x", .str "x"] (.lengthMismatch 1 2)
    (by decide)).1

/-- C14 as stated fails: in the grid A, A, B the row of B fails with the length-mismatch
error and both rows of A are selected and succeed; the first gives Trout, yet the map
returned holds under A the Catfish calendar of the second row only. -/
theorem getStockingData_shadows_repeated_name :
    getDataFromRow (-1) [.str "x", .str "x"] ⟨"", [⟨1, 1, 2024, ""⟩]⟩ =
      .error (.lengthMismatch 1 2) ∧
    getDataFromRow (-1) [.str "x"] ⟨"", [⟨1, 1, 2024, ""⟩]⟩ =
      .ok ⟨"", [⟨1, 1, 2024, Trout⟩]⟩ ∧
    getDataFromRow (-1) [.str "c"] ⟨"", [⟨1, 1, 2024, ""⟩]⟩ =
      .ok ⟨"", [⟨1, 1, 2024, Catfish⟩]⟩ ∧
    getStockingData (-1) ⟨"", [⟨1, 1, 2024, ""⟩]⟩ []
        [[.str "A", .str "x"], [.str "A", .str "c"], [.str "B", .str "x", .str "x"]] =
      .ok ([("A", ⟨"A", [⟨1, 1, 2024, Catfish⟩]⟩)], ["A", "A", "B"]) := by
  decide

/-! ## Month tokens -/

theorem TrimSuffix_append (t suffix : String) : TrimSuffix (t ++ suffix) suffix = t := by
  unfold TrimSuffix
  have h1 : suffix.data.isSuffixOf (t ++ suffix).data = true := by
    rw [List.isSuffixOf_iff_suffix, String.data_append]
    exact List.suffix_append _ _
  rw [if_pos h1]
  apply String.ext
  simp

theorem TrimSuffix_of_not_mem (t suffix : String) (c : Char) (hc : c ∈ suffix.data)
    (ht : c ∉ t.data) : TrimSuffix t suffix = t := by
  unfold TrimSuffix
  have h1 : ¬ suffix.data.isSuffixOf t.data = true := by
    rw [List.isSuffixOf_iff_suffix]
    intro h
    exact ht (h.subset hc)
  rw [if_neg h1]

theorem lookup_mem (l : List (String × Int)) (k : String) (m : Int)
    (h : l.lookup k = some m) : (k, m) ∈ l := by
  obtain ⟨l1, l2, rfl, _⟩ := List.lookup_eq_some_iff.1 h
  simp

/-- The facts about a month name the parser relies on: its letters are their own
lower-case form and that of their upper-case form, none of them is the digit 4, and the
table maps the name to its month. -/
theorem monthMap_entry (name : String) (m : Int) (h : (name, m) ∈ monthMap) :
    monthMap.lookup name = some m ∧
      ∀ l ∈ name.data, toLowerRune l = l ∧ toLowerRune (upperRune l) = l ∧ l ≠ '4' ∧
        upperRune l ≠ '4' := by
  simp only [monthMap, List.mem_cons, Prod.mk.injEq, List.mem_singleton, List.not_mem_nil,
    or_false] at h
  rcases h with ⟨rfl, rfl⟩ | ⟨rfl, rfl⟩ | ⟨rfl, rfl⟩ | ⟨rfl, rfl⟩ | ⟨rfl, rfl⟩ | ⟨rfl, rfl⟩ |
    ⟨rfl, rfl⟩ | ⟨rfl, rfl⟩ | ⟨rfl, rfl⟩ | ⟨rfl, rfl⟩ | ⟨rfl, rfl⟩ | ⟨rfl, rfl⟩ <;>
  exact ⟨by decide, by decide⟩

theorem caseMix_lower (t name : List Char)
    (hmix : List.Forall₂ (fun c l => c = l ∨ c = upperRune l) t name)
    (hname : ∀ l ∈ name, toLowerRune l = l ∧ toLowerRune (upperRune l) = l ∧ l ≠ '4' ∧
      upperRune l ≠ '4') :
    t.map toLowerRune = name ∧ '4' ∉ t := by
  induction hmix with
  | nil => simp
  | @cons c l t2 name2 hcl _ ih =>
    obtain ⟨h1, h2, h3, h4⟩ := hname l (List.mem_cons_self _ _)
    obtain ⟨ih1, ih2⟩ := ih (fun x hx => hname x (List.mem_cons_of_mem _ hx))
    constructor
    · rw [List.map_cons, ih1]
      rcases hcl with rfl | rfl
      · rw [h1]
      · rw [h2]
    · intro hmem
      rcases List.mem_cons.1 hmem with h | h
      · rcases hcl with rfl | rfl
        · exact h3 h.symm
        · exact h4 h.symm
      · exact ih2 h

/-- A month name in any mixture of upper and lower case, bare or followed by " 2024",
parses to its month. -/
theorem parseMonth_caseMix (name : String) (m : Int) (h : (name, m) ∈ monthMap) (t : String)
    (hmix : IsCaseMix t name) :
    parseMonth t = some m ∧ parseMonth (t ++ " 2024") = some m := by
  obtain ⟨hlook, hchars⟩ := monthMap_entry name m h
  obtain ⟨hlow, h4⟩ := caseMix_lower t.data name.data hmix hchars
  have hl : ToLower t = name := by
    apply String.ext
    exact hlow
  unfold parseMonth
  rw [TrimSuffix_append, TrimSuffix_of_not_mem t " 2024" '4' (by decide) h4, hl]
  exact ⟨hlook, hlook⟩

/-- A month cell that yields no month takes no position in the parsed month list. -/
theorem parseMonths_delete (pre post : List Cell) (c : Cell)
    (hc : parseMonth (cellAsString c) = none) :
    parseMonths (pre ++ c :: post) = parseMonths (pre ++ post) := by
  unfold parseMonths
  rw [nonEmptyCells_append, nonEmptyCells_append, nonEmptyCells_cons]
  by_cases h : cellAsString c = ""
  · simp [h]
  · simp [h, hc]

/-- C15 (amended statement). Each of the twelve month names, in any mixture of upper and
lower case, parses to its month both bare and followed by " 2024", the one suffix
`parseMonth` removes; a token yields a month exactly when, one trailing " 2024" removed,
its lower-case form is a name of the table, so a name followed by any other year yields no
month; a cell that yields no month is dropped from the parsed month list without taking a
position in it. -/
theorem parseMonth_spec :
    (∀ (name : String) (m : Int), (name, m) ∈ monthMap → ∀ t : String, IsCaseMix t name →
      parseMonth t = some m ∧ parseMonth (t ++ " 2024") = some m) ∧
    (∀ (tok : String) (m : Int), parseMonth tok = some m ↔
      (ToLower (TrimSuffix tok " 2024"), m) ∈ monthMap) ∧
    (∀ (pre post : List Cell) (c : Cell), parseMonth (cellAsString c) = none →
      parseMonths (pre ++ c :: post) = parseMonths (pre ++ post)) ∧
    monthMap.map Prod.fst = ["january", "february", "march", "april", "may", "june", "july",
      "august", "september", "october", "november", "december"] ∧
    (parseMonth "January 2024" = some 1 ∧ parseMonth "DECEMBER 2024" = some 12 ∧
      parseMonth "dEcEmBeR" = some 12 ∧ parseMonth "DECEMBER 2025" = none ∧
      parseMonth "January 2023" = none ∧ parseMonth "Jan" = none) ∧
    ["January", "February", "March", "April", "May", "June", "July", "August", "September",
      "October", "November", "December"].map parseMonth =
      [some 1, some 2, some 3, some 4, some 5, some 6, some 7, some 8, some 9, some 10,
        some 11, some 12] :=
  ⟨parseMonth_caseMix,
    fun _ m => ⟨fun h => lookup_mem monthMap _ m h, fun h => (monthMap_entry _ m h).1⟩,
    parseMonths_delete, by decide, by decide, by decide⟩

/-- Witness for C15: "MaRcH" and "MaRcH 2024". -/
theorem parseMonth_spec_witness :
    parseMonth "MaRcH" = some 3 ∧ parseMonth ("MaRcH" ++ " 2024") = some 3 :=
  parseMonth_spec.1 "march" 3 (by decide) "MaRcH"
    (.cons (Or.inr (by decide)) (.cons (Or.inl rfl) (.cons (Or.inr (by decide))
      (.cons (Or.inl rfl) (.cons (Or.inr (by decide)) .nil)))))

/-- C15 as stated fails: "DECEMBER 2025", a month name followed by a space and a year
number, yields no month, and so does "January 2025". -/
theorem parseMonth_rejects_other_years :
    parseMonth "DECEMBER 2025" = none ∧ parseMonth "January 2025" = none ∧
    parseMonths [.str "December 2024", .str "January 2025"] = [12] := by
  decide

/-! ## Time zone and formatting -/

/-- C16 (the code departs from the claim). `azTime` is `time.FixedZone("AZ", -7)`, an
offset of 7 seconds: for every Week, Time() is 7 seconds, not 25200 seconds, after 00:00
UTC of its date; for 1 January 2024 it is 00:00:07 UTC (Unix time 1704067207), not
07:00:00 UTC (Unix time 1704092400). -/
theorem Week_Time_seven_seconds_after_midnight (w : Week) :
    w.Time = (dateUnix w.Year w.Month w.Day 0 + 7) * 1000000000 ∧
    w.Time ≠ (dateUnix w.Year w.Month w.Day 0 + 25200) * 1000000000 ∧
    dateUnix 2024 1 1 0 = 1704067200 ∧
    Week.Time ⟨1, 1, 2024, ""⟩ = 1704067207 * 1000000000 ∧
    Week.Time ⟨1, 1, 2024, ""⟩ ≠ 1704092400 * 1000000000 := by
  have h : w.Time = (dateUnix w.Year w.Month w.Day 0 + 7) * 1000000000 := by
    unfold Week.Time dateUnix azOffset
    ring
  refine ⟨h, ?_, by decide, by decide, by decide⟩
  rw [h]
  omega

theorem Week_String_ne_empty (w : Week) : w.String ≠ "" := by
  unfold Week.String
  split_ifs
  · decide
  · intro h
    have h2 := congrArg String.data h
    simp [quote] at h2

/-- C17 (the code departs from the claim). `String()` is `Format(false)`, which writes a
line for every entry: for a calendar of one None entry `String()` is the line of that
entry while `Format(true)` is empty, and for a calendar of a Trout and a None entry
`String()` has both lines while `Format(true)` has the Trout line only. -/
theorem Calendar_String_keeps_none_entries :
    (∀ s : Calendar, s.String = s.Format false) ∧
    (∀ (name : String) (month day year : Int),
      (Calendar.mk name [⟨month, day, year, NoneFish⟩]).String =
        Week.String ⟨month, day, year, NoneFish⟩ ∧
      Week.String ⟨month, day, year, NoneFish⟩ ≠ "" ∧
      (Calendar.mk name [⟨month, day, year, NoneFish⟩]).Format true = "") ∧
    Calendar.String ⟨"A", [⟨1, 5, 2024, Trout⟩, ⟨1, 12, 2024, NoneFish⟩]⟩ =
      Week.String ⟨1, 5, 2024, Trout⟩ ++ "\n" ++ Week.String ⟨1, 12, 2024, NoneFish⟩ ∧
    Calendar.Format ⟨"A", [⟨1, 5, 2024, Trout⟩, ⟨1, 12, 2024, NoneFish⟩]⟩ true =
      Week.String ⟨1, 5, 2024, Trout⟩ ∧
    Calendar.String ⟨"A", [⟨1, 5, 2024, Trout⟩, ⟨1, 12, 2024, NoneFish⟩]⟩ ≠
      Calendar.Format ⟨"A", [⟨1, 5, 2024, Trout⟩, ⟨1, 12, 2024, NoneFish⟩]⟩ true := by
  refine ⟨fun _ => rfl, ?_, by decide, by decide, by decide⟩
  intro name month day year
  refine ⟨?_, Week_String_ne_empty _, ?_⟩
  · show TrimSuffix (("" ++ Week.String ⟨month, day, year, NoneFish⟩) ++ "\n") "\n" = _
    rw [TrimSuffix_append]
    apply String.ext
    simp
  · show TrimSuffix (formatLoop true [⟨month, day, year, NoneFish⟩] "") "\n" = ""
    simp [formatLoop, TrimSuffix]

/-! ## Date-axis builder: order and stock of the entries -/

theorem yearAdvances_succ (months : List Int) (ds : List Int) (k : Nat) :
    yearAdvances months ds (k + 1) =
      yearAdvances months ds k +
        if ds.getD (k + 1) 0 < ds.getD k 0 ∧
          months[monthAdvances ds (k + 1)]? = some January ∧
          months[monthAdvances ds (k + 1) - 1]? = some December then 1 else 0 := by
  rw [← yearAdvancesFrom_base, ← yearAdvancesFrom_base, yearAdvancesFrom_succ]
  simp only [Nat.zero_add]

/-- Two consecutive entries of a successfully built axis: without a day decrease they
share month and year; with one, their months are consecutive in the month list and the
year grows by one exactly from December to January. -/
theorem initializeCalendar_consecutive (monthCells dayCells : List Cell) (year : Int)
    (cal : Calendar) (h : initializeCalendar [monthCells, dayCells] year = .ok cal)
    (k : Nat) (a b : Week) (ha : cal.Data[k]? = some a) (hb : cal.Data[k + 1]? = some b) :
    (a.Day ≤ b.Day → b.Month = a.Month ∧ b.Year = a.Year) ∧
    (b.Day < a.Day → ∃ i, (parseMonths monthCells)[i]? = some a.Month ∧
      (parseMonths monthCells)[i + 1]? = some b.Month ∧
      b.Year = a.Year + if b.Month = January ∧ a.Month = December then 1 else 0) := by
  obtain ⟨_, hlen, hidx⟩ := initializeCalendar_entries monthCells dayCells year cal h
  have hk : k < (parsedDays dayCells).length := by
    rw [← hlen]; exact (List.getElem?_eq_some.1 ha).1
  have hk1 : k + 1 < (parsedDays dayCells).length := by
    rw [← hlen]; exact (List.getElem?_eq_some.1 hb).1
  obtain ⟨a2, ha2, hda, _, hma, hya⟩ := hidx k _ (List.getElem?_eq_getElem hk)
  obtain ⟨b2, hb2, hdb, _, hmb, hyb⟩ := hidx (k + 1) _ (List.getElem?_eq_getElem hk1)
  rw [ha] at ha2
  rw [hb] at hb2
  simp only [Option.some.injEq] at ha2 hb2
  subst ha2
  subst hb2
  rw [monthAdvances_succ] at hmb
  rw [yearAdvances_succ, monthAdvances_succ] at hyb
  simp only [List.getD_eq_getElem?_getD, List.getElem?_eq_getElem hk,
    List.getElem?_eq_getElem hk1, Option.getD_some] at hmb hyb
  rw [← hda, ← hdb] at hmb hyb
  constructor
  · intro hle
    have hnot : ¬ b.Day < a.Day := by omega
    simp only [hnot, if_false, false_and, Nat.add_zero] at hmb hyb
    rw [hma] at hmb
    simp only [Option.some.injEq] at hmb
    refine ⟨hmb.symm, ?_⟩
    rw [hyb, hya]
  · intro hlt
    simp only [hlt, if_true, true_and, Nat.add_sub_cancel] at hmb hyb
    refine ⟨_, hma, hmb, ?_⟩
    rw [hyb, hya, hmb, hma]
    simp only [Option.some.injEq]
    push_cast
    ring_nf

theorem dateLE_trans (a b c : Week) (hab : dateLE a b) (hbc : dateLE b c) : dateLE a c := by
  unfold dateLE at *
  omega

/-- C18 (amended statement). On every header pair on which the builder succeeds, two
consecutive entries without a day decrease between them have the same year and month and
days in non-decreasing order; and when in the parsed month list each month is later in the
year than the one before it, or is January right after December, the entries are in
non-decreasing order of (Year, Month, Day). -/
theorem initializeCalendar_chronological (monthCells dayCells : List Cell) (year : Int)
    (cal : Calendar) (h : initializeCalendar [monthCells, dayCells] year = .ok cal) :
    (∀ (k : Nat) (a b : Week), cal.Data[k]? = some a → cal.Data[k + 1]? = some b →
      a.Day ≤ b.Day → b.Month = a.Month ∧ b.Year = a.Year ∧ dateLE a b) ∧
    ((∀ (i : Nat) (m1 m2 : Int), (parseMonths monthCells)[i]? = some m1 →
        (parseMonths monthCells)[i + 1]? = some m2 →
        m1 < m2 ∨ (m1 = December ∧ m2 = January)) →
      List.Chain' dateLE cal.Data ∧ List.Pairwise dateLE cal.Data) := by
  constructor
  · intro k a b ha hb hle
    obtain ⟨h1, h2⟩ := (initializeCalendar_consecutive monthCells dayCells year cal h k a b
      ha hb).1 hle
    refine ⟨h1, h2, ?_⟩
    unfold dateLE
    omega
  · intro hmonths
    have hchain : List.Chain' dateLE cal.Data := by
      rw [List.chain'_iff_get]
      intro k hk
      have hk0 : k < cal.Data.length := by omega
      have hk1 : k + 1 < cal.Data.length := by omega
      have ha : cal.Data[k]? = some (cal.Data.get ⟨k, hk0⟩) := by
        simp [List.getElem?_eq_getElem hk0]
      have hb : cal.Data[k + 1]? = some (cal.Data.get ⟨k + 1, hk1⟩) := by
        simp [List.getElem?_eq_getElem hk1]
      obtain ⟨hsame, hadv⟩ := initializeCalendar_consecutive monthCells dayCells year cal h k
        _ _ ha hb
      generalize cal.Data.get ⟨k, hk0⟩ = a at hsame hadv
      generalize cal.Data.get ⟨k + 1, hk1⟩ = b at hsame hadv
      rcases Int.lt_or_le b.Day a.Day with hlt | hle
      · obtain ⟨i, hi, hi1, hy⟩ := hadv hlt
        unfold dateLE
        rcases hmonths i _ _ hi hi1 with hm | ⟨hm1, hm2⟩
        · have hne : ¬ (b.Month = January ∧ a.Month = December) := by
            unfold January December
            omega
          rw [if_neg hne] at hy
          omega
        · rw [if_pos ⟨hm2, hm1⟩] at hy
          omega
      · obtain ⟨h1, h2⟩ := hsame hle
        unfold dateLE
        omega
    refine ⟨hchain, ?_⟩
    haveI : IsTrans Week dateLE := ⟨dateLE_trans⟩
    exact List.chain'_iff_pairwise.1 hchain

/-- Witness for C18 as amended: December, January with the days 30, 31, 1, 2. -/
theorem initializeCalendar_chronological_witness :
    List.Chain' dateLE [(⟨12, 30, 2024, ""⟩ : Week), ⟨12, 31, 2024, ""⟩, ⟨1, 1, 2025, ""⟩,
      ⟨1, 2, 2025, ""⟩] :=
  ((initializeCalendar_chronological [.str "December", .other, .str "January"]
    [.str "30", .str "31", .str "1", .str "2"] 2024
    ⟨"", [⟨12, 30, 2024, ""⟩, ⟨12, 31, 2024, ""⟩, ⟨1, 1, 2025, ""⟩, ⟨1, 2, 2025, ""⟩]⟩
    (by decide)).2 (by
      have hm : parseMonths [.str "December", .other, .str "January"] = [12, 1] := by decide
      rw [hm]
      intro i m1 m2 h1 h2
      match i, h1, h2 with
      | 0, h1, h2 =>
        simp only [List.getElem?_cons_zero, List.getElem?_cons_succ, Option.some.injEq] at h1 h2
        exact Or.inr ⟨h1.symm, h2.symm⟩
      | 1, _, h2 => simp at h2
      | i + 2, h1, _ => simp at h1)).1

/-- C18 as stated fails: with the month row February, January and the day row 28, 1 the
builder succeeds and emits 28 February before 1 January of the same year. -/
theorem initializeCalendar_not_chronological :
    initializeCalendar [[.str "February", .str "January"], [.str "28", .str "1"]] 2024 =
      .ok ⟨"", [⟨2, 28, 2024, ""⟩, ⟨1, 1, 2024, ""⟩]⟩ ∧
    ¬ dateLE ⟨2, 28, 2024, ""⟩ ⟨1, 1, 2024, ""⟩ ∧
    ¬ List.Chain' dateLE [(⟨2, 28, 2024, ""⟩ : Week), ⟨1, 1, 2024, ""⟩] := by
  refine ⟨rfl, by decide, ?_⟩
  simp only [List.chain'_cons, List.chain'_singleton, and_true]
  decide

theorem nextLoop_of_not_none (now : Int) (l : List Week)
    (h : ∀ w ∈ l, w.Stock ≠ NoneFish) :
    nextLoop now l = (l.find? fun w => decide (now < w.Time)).getD Week.zero := by
  induction l with
  | nil => rfl
  | cons a l ih =>
    have ha : a.Stock ≠ NoneFish := h a (List.mem_cons_self _ _)
    have ih2 := ih (fun w hw => h w (List.mem_cons_of_mem _ hw))
    rw [nextLoop, if_neg ha, List.find?_cons]
    by_cases ht : now < a.Time
    · have ht2 : a.Time > now := ht
      simp [ht, ht2]
    · have ht2 : ¬ a.Time > now := ht
      simp [ht, ht2, ih2]

theorem lastLoop_of_not_none (now : Int) (l : List Week)
    (h : ∀ w ∈ l, w.Stock ≠ NoneFish) :
    lastLoop now l = (l.find? fun w => decide (w.Time < now)).getD Week.zero := by
  induction l with
  | nil => rfl
  | cons a l ih =>
    have ha : a.Stock ≠ NoneFish := h a (List.mem_cons_self _ _)
    have ih2 := ih (fun w hw => h w (List.mem_cons_of_mem _ hw))
    rw [lastLoop, if_neg ha, List.find?_cons]
    by_cases ht : a.Time < now
    · simp [ht]
    · simp [ht, ih2]

/-- C19 (amended statement). On every header pair on which the builder succeeds, every
emitted entry has the unset Stock, the empty text, which is not the constant NoneFish; so
`Next` and `Last` applied to the fresh axis skip no entry: `Next` returns the first entry
dated after `now`, `Last` the last entry dated before `now`, and the zero value `Week{}`
only when there is no such entry. -/
theorem initializeCalendar_stock_unset (monthCells dayCells : List Cell) (year : Int)
    (cal : Calendar) (h : initializeCalendar [monthCells, dayCells] year = .ok cal) :
    (∀ w ∈ cal.Data, w.Stock = "" ∧ w.Stock ≠ NoneFish) ∧
    (∀ now : Int,
      cal.Next now = (cal.Data.find? fun w => decide (now < w.Time)).getD Week.zero) ∧
    (∀ now : Int,
      cal.Last now = (cal.Data.reverse.find? fun w => decide (w.Time < now)).getD Week.zero) := by
  obtain ⟨_, hlen, hidx⟩ := initializeCalendar_entries monthCells dayCells year cal h
  have hstock : ∀ w ∈ cal.Data, w.Stock = "" := by
    intro w hw
    obtain ⟨k, hk⟩ := List.mem_iff_getElem?.1 hw
    have hkl : k < (parsedDays dayCells).length := by
      rw [← hlen]; exact (List.getElem?_eq_some.1 hk).1
    obtain ⟨w2, hw2, _, hs, _, _⟩ := hidx k _ (List.getElem?_eq_getElem hkl)
    rw [hk] at hw2
    simp only [Option.some.injEq] at hw2
    rw [hw2]
    exact hs
  have hne : ∀ w ∈ cal.Data, w.Stock ≠ NoneFish := by
    intro w hw
    rw [hstock w hw]
    decide
  refine ⟨fun w hw => ⟨hstock w hw, hne w hw⟩, ?_, ?_⟩
  · intro now
    exact nextLoop_of_not_none now cal.Data hne
  · intro now
    exact lastLoop_of_not_none now cal.Data.reverse
      (fun w hw => hne w (List.mem_reverse.1 hw))

/-- Witness for C19 as amended: the axis of the header January / 15. -/
theorem initializeCalendar_stock_unset_witness :
    (⟨1, 15, 2024, ""⟩ : Week).Stock = "" ∧ (⟨1, 15, 2024, ""⟩ : Week).Stock ≠ NoneFish :=
  (initializeCalendar_stock_unset [.str "January"] [.str "15"] 2024
    ⟨"", [⟨1, 15, 2024, ""⟩]⟩ (by decide)).1 ⟨1, 15, 2024, ""⟩ (by decide)

/-- C19 as stated fails: the axis built from the header January / 15 in 2024 has one entry
whose Stock is the empty text, not NoneFish, and `Next` applied to that axis at the Unix
epoch returns the entry, not the zero value `Week{}`. -/
theorem initializeCalendar_stock_is_not_none :
    initializeCalendar [[.str "January"], [.str "15"]] 2024 =
      .ok ⟨"", [⟨1, 15, 2024, ""⟩]⟩ ∧
    (⟨1, 15, 2024, ""⟩ : Week).Stock ≠ NoneFish ∧
    Calendar.Next ⟨"", [⟨1, 15, 2024, ""⟩]⟩ 0 = ⟨1, 15, 2024, ""⟩ ∧
    Calendar.Next ⟨"", [⟨1, 15, 2024, ""⟩]⟩ 0 ≠ Week.zero := by
  decide

/-! ## Ranking: determinism -/

theorem compareEntries_lt_iff (next : Bool) (a b : String × Week) :
    compareEntries next b a < 0 ↔ ¬ compareEntries next a b ≤ 0 := by
  have hs : stringsCompare b.1 a.1 < 0 ↔ ¬ stringsCompare a.1 b.1 ≤ 0 := by
    unfold stringsCompare
    by_cases h : a.1 = b.1
    · simp [h]
    · have h2 : ¬ b.1 = a.1 := fun e => h e.symm
      have hne : a.1.data ≠ b.1.data := fun e => h (String.ext e)
      rw [if_neg h, if_neg h2]
      by_cases hlt : a.1.data < b.1.data
      · have : ¬ b.1.data < a.1.data := not_lt.2 (le_of_lt hlt)
        simp [hlt, this]
      · have : b.1.data < a.1.data := lt_of_le_of_ne (not_lt.1 hlt) (Ne.symm hne)
        simp [hlt, this]
  unfold compareEntries timeCompare
  cases next
  · simp only [Bool.false_eq_true, if_false]
    rcases lt_trichotomy a.2.Time b.2.Time with h | h | h
    · have h1 : ¬ b.2.Time < a.2.Time := by omega
      simp [h, h1]
    · simp [h, hs]
    · have h1 : ¬ a.2.Time < b.2.Time := by omega
      simp [h, h1]
  · simp only [if_true]
    rcases lt_trichotomy a.2.Time b.2.Time with h | h | h
    · have h1 : ¬ b.2.Time < a.2.Time := by omega
      simp [h, h1]
    · simp [h, hs]
    · have h1 : ¬ a.2.Time < b.2.Time := by omega
      simp [h, h1]

theorem compareEntries_eq_zero_iff (next : Bool) (a b : String × Week) :
    compareEntries next a b = 0 ↔ a.2.Time = b.2.Time ∧ a.1 = b.1 := by
  have hs : stringsCompare a.1 b.1 = 0 ↔ a.1 = b.1 := by
    unfold stringsCompare
    by_cases h : a.1 = b.1
    · simp [h]
    · rw [if_neg h]
      split_ifs <;> simp [h]
  unfold compareEntries timeCompare
  cases next
  · simp only [Bool.false_eq_true, if_false]
    rcases lt_trichotomy a.2.Time b.2.Time with h | h | h
    · have h1 : ¬ b.2.Time < a.2.Time := by omega
      have h2 : ¬ a.2.Time = b.2.Time := by omega
      simp [h, h1, h2]
    · simp [h, hs]
    · have h1 : ¬ a.2.Time < b.2.Time := by omega
      have h2 : ¬ a.2.Time = b.2.Time := by omega
      simp [h, h1, h2]
  · simp only [if_true]
    rcases lt_trichotomy a.2.Time b.2.Time with h | h | h
    · have h2 : ¬ a.2.Time = b.2.Time := by omega
      simp [h, h2]
    · simp [h, hs]
    · have h1 : ¬ a.2.Time < b.2.Time := by omega
      have h2 : ¬ a.2.Time = b.2.Time := by omega
      simp [h, h1, h2]

/-- A sorted list in the sense of `slices.IsSortedFunc` is pairwise in order. -/
theorem IsSortedFunc_pairwise (next : Bool) (l : List (String × Week))
    (h : IsSortedFunc l (compareEntries next)) :
    List.Pairwise (fun a b => compareEntries next a b ≤ 0) l := by
  haveI : IsTrans (String × Week) (fun a b => compareEntries next a b ≤ 0) :=
    ⟨compareEntries_trans next⟩
  apply List.chain'_iff_pairwise.1
  refine List.Chain'.imp ?_ h
  intro a b hab
  by_contra hc
  exact hab ((compareEntries_lt_iff next a b).2 hc)

/-- Two sorted arrangements of entries with pairwise distinct names are the same list. -/
theorem sorted_entries_unique (next : Bool) (l out1 out2 : List (String × Week))
    (hnames : (l.map Prod.fst).Nodup) (hp1 : List.Perm out1 l) (hp2 : List.Perm out2 l)
    (hs1 : List.Pairwise (fun a b => compareEntries next a b ≤ 0) out1)
    (hs2 : List.Pairwise (fun a b => compareEntries next a b ≤ 0) out2) : out1 = out2 := by
  refine List.Perm.eq_of_sorted ?_ hs1 hs2 (hp1.trans hp2.symm)
  intro a b ha hb hab hba
  rw [compareEntries_le_iff] at hab hba
  have hname : a.1 = b.1 := by
    cases next
    · simp only [Bool.false_eq_true, if_false] at hab hba
      rcases hab with h1 | ⟨_, n1⟩ <;> rcases hba with h2 | ⟨_, n2⟩
      · omega
      · omega
      · omega
      · exact le_antisymm n1 n2
    · simp only [if_true] at hab hba
      rcases hab with h1 | ⟨_, n1⟩ <;> rcases hba with h2 | ⟨_, n2⟩
      · omega
      · omega
      · omega
      · exact le_antisymm n1 n2
  exact List.inj_on_of_nodup_map hnames (hp1.subset ha) (hp2.subset hb) hname

/-- C20. For a map with distinct names, every `now` and both directions: whatever the
order in which the entries of the map are visited (`data2` is `data1` in another order)
and whatever the sort (any permutation of the collected elements that is sorted by the
comparison closure), the output is the same sequence, the one `sortNextOrRecent` returns;
on the produced entries the closure returns 0 only for an entry compared with itself. -/
theorem sortNextOrRecent_deterministic (data1 data2 : List (String × Calendar))
    (next : Bool) (now : Int) (out1 out2 : List (String × Week))
    (hkeys : (data1.map Prod.fst).Nodup) (hvisit : List.Perm data1 data2)
    (h1 : List.Perm out1 (collectWeeks data1 next now) ∧
      IsSortedFunc out1 (compareEntries next))
    (h2 : List.Perm out2 (collectWeeks data2 next now) ∧
      IsSortedFunc out2 (compareEntries next)) :
    out1 = out2 ∧ out1 = sortNextOrRecent data1 next now ∧
    sortNextOrRecent data1 next now = sortNextOrRecent data2 next now ∧
    (∀ a ∈ collectWeeks data1 next now, ∀ b ∈ collectWeeks data1 next now,
      compareEntries next a b = 0 → a = b) := by
  have hnames : ((collectWeeks data1 next now).map Prod.fst).Nodup :=
    List.Nodup.sublist (collectWeeks_names_sublist data1 next now) hkeys
  have hcw : List.Perm (collectWeeks data2 next now) (collectWeeks data1 next now) :=
    (List.Perm.filterMap _ hvisit).symm
  have hmodel1 := sorted_entries_unique next (collectWeeks data1 next now) out1
    (sortNextOrRecent data1 next now) hnames h1.1 (SortFunc_perm _ _)
    (IsSortedFunc_pairwise next out1 h1.2) (SortFunc_compareEntries_sorted next _)
  have hmodel2 := sorted_entries_unique next (collectWeeks data1 next now) out2
    (sortNextOrRecent data2 next now) hnames (h2.1.trans hcw)
    ((SortFunc_perm _ _).trans hcw)
    (IsSortedFunc_pairwise next out2 h2.2) (SortFunc_compareEntries_sorted next _)
  have h12 := sorted_entries_unique next (collectWeeks data1 next now) out1 out2 hnames
    h1.1 (h2.1.trans hcw) (IsSortedFunc_pairwise next out1 h1.2)
    (IsSortedFunc_pairwise next out2 h2.2)
  refine ⟨h12, hmodel1, ?_, ?_⟩
  · rw [← hmodel1, ← hmodel2, h12]
  · intro a ha b hb hab
    exact List.inj_on_of_nodup_map hnames ha hb ((compareEntries_eq_zero_iff next a b).1 hab).2

/-- Witness for C20: the waters A and B visited in both orders. -/
theorem sortNextOrRecent_deterministic_witness :
    [("B", (⟨1, 11, 2024, Trout⟩ : Week)), ("A", ⟨1, 13, 2024, Trout⟩)] =
      sortNextOrRecent
        [("A", ⟨"A", [⟨1, 13, 2024, Trout⟩]⟩), ("B", ⟨"B", [⟨1, 11, 2024, Trout⟩]⟩)] true 0 :=
  (sortNextOrRecent_deterministic
    [("A", ⟨"A", [⟨1, 13, 2024, Trout⟩]⟩), ("B", ⟨"B", [⟨1, 11, 2024, Trout⟩]⟩)]
    [("B", ⟨"B", [⟨1, 11, 2024, Trout⟩]⟩), ("A", ⟨"A", [⟨1, 13, 2024, Trout⟩]⟩)]
    true 0
    [("B", ⟨1, 11, 2024, Trout⟩), ("A", ⟨1, 13, 2024, Trout⟩)]
    [("B", ⟨1, 11, 2024, Trout⟩), ("A", ⟨1, 13, 2024, Trout⟩)]
    (by decide) (List.Perm.swap _ _ _)
    ⟨by
      have hc : collectWeeks
          [("A", ⟨"A", [⟨1, 13, 2024, Trout⟩]⟩), ("B", ⟨"B", [⟨1, 11, 2024, Trout⟩]⟩)] true 0 =
          [("A", ⟨1, 13, 2024, Trout⟩), ("B", ⟨1, 11, 2024, Trout⟩)] := by decide
      rw [hc]
      exact List.Perm.swap _ _ _,
     by
      unfold IsSortedFunc
      simp only [List.chain'_cons, List.chain'_singleton, and_true]
      decide⟩
    ⟨by
      have hc : collectWeeks
          [("B", ⟨"B", [⟨1, 11, 2024, Trout⟩]⟩), ("A", ⟨"A", [⟨1, 13, 2024, Trout⟩]⟩)] true 0 =
          [("B", ⟨1, 11, 2024, Trout⟩), ("A", ⟨1, 13, 2024, Trout⟩)] := by decide
      rw [hc],
     by
      unfold IsSortedFunc
      simp only [List.chain'_cons, List.chain'_singleton, and_true]
      decide⟩).2.1

end Stocker
